import Mathlib

/-!
Verification of the SHT colour library (`sht-colour`).

This file gives a shallow embedding of the library's core: checked rational
arithmetic over a bounded unsigned integer type, the `SHT` data model and its
validator, the duodecimal text parser, the duodecimal formatter, and the two
conversion algorithms between RGB channel ratios and SHT components.

Modelling conventions:
* The generic unsigned backing integer `T` is modelled by natural numbers
  together with an explicit bound `M` (the maximal representable value, e.g.
  `255` for `u8`, `4294967295` for `u32`).  Checked operations return `none`
  exactly when the Rust `checked_*` operation returns `None`.
* `Ratio<T>` values are modelled by `ℚ`.  The `num` crate keeps every `Ratio`
  reduced, and Lean's `ℚ` is always reduced, so `Rat.num`/`Rat.den` coincide
  with the `numer`/`denom` fields of the corresponding `Ratio<T>` value.
* A Rust panic (`expect`/`unwrap`/arithmetic overflow in an unchecked
  operation) is modelled by `Option.none` in functions whose name carries a
  question mark, or by an explicit panic-condition predicate.
* Strings are modelled by `List Char`.
-/

namespace ShtColour

set_option maxRecDepth 100000

/-! ## Checked integer arithmetic (model of the `num` crate's checked ops) -/

/-- Checked multiplication on the bounded unsigned integer type with maximal
value `M`: `some (a * b)` when the product is representable, else `none`.
Models `T::checked_mul`. -/
def checkedMul (M a b : ℕ) : Option ℕ :=
  if a * b ≤ M then some (a * b) else none

/-- Model of `num::checked_pow` on the bounded unsigned type: repeated checked
multiplication.  (The crate uses binary exponentiation, but for a base `b ≥ 1`
every intermediate square divides the final power, so it succeeds exactly when
the naive product chain does, with the same value; for `b = 0` both yield `0`.) -/
def checkedPow (M base : ℕ) : ℕ → Option ℕ
  | 0 => some 1
  | n + 1 => (checkedPow M base n).bind fun acc => checkedMul M acc base

/-- Truncation of a rational towards zero, as in `Ratio::trunc` (for the
unsigned instantiations used here all values are nonnegative, so this is the
`numer / denom` integer division the crate performs). -/
def ratTrunc (q : ℚ) : ℤ := q.num / (q.den : ℤ)

/-- Model of `Ratio::checked_div` by the integer ratio `b/1` (the only shape of
divisor used by the library): the exact quotient `q / b`, or `none` when the
reduced numerator or denominator of the quotient exceeds `M`, or when `b = 0`.
The crate reduces by cross-gcds before multiplying, so the checked
multiplications succeed exactly when the reduced result is representable. -/
def checkedDivInt (M : ℕ) (q : ℚ) (b : ℕ) : Option ℚ :=
  if b = 0 then none
  else
    let r := q / (b : ℚ)
    if r.num.natAbs ≤ M ∧ r.den ≤ M then some r else none

/-- Model of `Ratio::checked_add`.  The crate computes
`lcm = (d₁/gcd)·d₂`, scales both numerators to `lcm`, adds them, and only then
reduces; each of those four intermediate values is overflow-checked, so the
operation fails exactly when one of them exceeds `M`. -/
def checkedAdd (M : ℕ) (q r : ℚ) : Option ℚ :=
  let g := Nat.gcd q.den r.den
  let l := q.den / g * r.den
  let qn := q.num.natAbs * (l / q.den)
  let rn := r.num.natAbs * (l / r.den)
  if l ≤ M ∧ qn ≤ M ∧ rn ≤ M ∧ qn + rn ≤ M then some (q + r) else none

/-- Panic condition of the *unchecked* `Ratio` addition `q + r` (used once in
the parser, after folding): the same four intermediate values as in
`checkedAdd`, but computed with plain (panicking / wrapping) integer
arithmetic.  The addition panics in debug builds exactly when one of the
intermediates exceeds `M`. -/
def addPanics (M : ℕ) (q r : ℚ) : Prop :=
  let g := Nat.gcd q.den r.den
  let l := q.den / g * r.den
  let qn := q.num.natAbs * (l / q.den)
  let rn := r.num.natAbs * (l / r.den)
  M < l ∨ M < qn ∨ M < rn ∨ M < qn + rn

instance (M : ℕ) (q r : ℚ) : Decidable (addPanics M q r) := by
  unfold addPanics; infer_instance

/-! ## `round_denominator` (lib.rs) -/

/-- The rounding arithmetic of `round_denominator` after a successful
`checked_pow`: with `newDenominator = base ^ exponent - negativeOffset`,
returns `round_half_up(value * newDenominator) / newDenominator`.
This models the function at instantiations where the remaining (unchecked)
ratio arithmetic does not overflow, e.g. `BigUint` or sufficiently wide `T`. -/
def round_denominator (ratioOnUnitInterval : ℚ) (base exponent negativeOffset : ℕ) : ℚ :=
  let newDenominator : ℚ := ((base ^ exponent - negativeOffset : ℕ) : ℚ)
  ((ratTrunc (ratioOnUnitInterval * newDenominator + 1 / 2) : ℚ)) / newDenominator

/-- `round_denominator` on the bounded type `M`, including the
`checked_pow(base, exponent).expect("Overflow calculating denominator")` call:
`none` models the panic raised by `expect` when the exponentiation overflows. -/
def round_denominator_checked (M : ℕ) (ratioOnUnitInterval : ℚ)
    (base exponent negativeOffset : ℕ) : Option ℚ :=
  (checkedPow M base exponent).map fun p =>
    let newDenominator : ℚ := ((p - negativeOffset : ℕ) : ℚ)
    ((ratTrunc (ratioOnUnitInterval * newDenominator + 1 / 2) : ℚ)) / newDenominator

/-! ## SHT data model (sht/mod.rs) -/

/-- Primary colour channel. -/
inductive ColourChannel : Type
  | Red
  | Green
  | Blue
deriving DecidableEq, Repr

/-- Secondary colour (an additive combination of two primaries). -/
inductive SecondaryColour : Type
  | Cyan
  | Yellow
  | Magenta
deriving DecidableEq, Repr

/-- Which channel(s) are brightest, with blend data. -/
inductive ChannelRatios : Type
  | OneBrightestChannel (primary : ColourChannel)
      (directionBlend : Option (ColourChannel × ℚ))
  | TwoBrightestChannels (secondary : SecondaryColour)
  | ThreeBrightestChannels
deriving DecidableEq, Repr

/-- The `SHT` aggregate: channel classification, shade, tint. -/
structure SHT : Type where
  channelRatios : ChannelRatios
  shade : ℚ
  tint : ℚ
deriving DecidableEq, Repr

/-- Validation errors collected by `SHT::normal`. -/
inductive SHTValueError : Type
  | PrimaryShadeZero
  | PrimaryTintOne
  | SecondaryShadeZero
  | SecondaryTintOne
  | DirectionEqualsPrimary
  | ValueOutOfBounds
  | BlendZero
  | BlendOne
deriving DecidableEq, Repr

/-- The list of invariant violations pushed by `SHT::normal`, in source push
order. -/
def normalErrors (channelRatios : ChannelRatios) (shade tint : ℚ) : List SHTValueError :=
  (match channelRatios with
    | ChannelRatios.OneBrightestChannel primary directionBlend =>
      (if shade = 0 then [SHTValueError.PrimaryShadeZero] else []) ++
      (if tint = 1 then [SHTValueError.PrimaryTintOne] else []) ++
      (match directionBlend with
        | some (direction, blend) =>
          (if direction = primary then [SHTValueError.DirectionEqualsPrimary] else []) ++
          (if blend = 0 then [SHTValueError.BlendZero] else []) ++
          (if blend = 1 then [SHTValueError.BlendOne] else []) ++
          (if blend > 1 then [SHTValueError.ValueOutOfBounds] else [])
        | none => [])
    | ChannelRatios.TwoBrightestChannels _ =>
      (if shade = 0 then [SHTValueError.SecondaryShadeZero] else []) ++
      (if tint = 1 then [SHTValueError.SecondaryTintOne] else [])
    | ChannelRatios.ThreeBrightestChannels => []) ++
  (if tint > 1 then [SHTValueError.ValueOutOfBounds] else []) ++
  (if shade > 1 then [SHTValueError.ValueOutOfBounds] else [])

/-- `SHT::new`: returns the validated value, or the complete list of violated
invariants. -/
def SHT.new (channelRatios : ChannelRatios) (shade tint : ℚ) :
    Except (List SHTValueError) SHT :=
  match normalErrors channelRatios shade tint with
  | [] => Except.ok ⟨channelRatios, shade, tint⟩
  | e :: es => Except.error (e :: es)

/-! ## Conversion algorithms (lib.rs) -/

/-- `char_to_primary`: `none` models the panic on an unexpected character. -/
def char_to_primary (c : Char) : Option ColourChannel :=
  if c = 'r' then some ColourChannel.Red
  else if c = 'g' then some ColourChannel.Green
  else if c = 'b' then some ColourChannel.Blue
  else none

/-- `chars_to_secondary`: `none` models the panic on an unexpected pair. -/
def chars_to_secondary (a b : Char) : Option SecondaryColour :=
  if (a = 'g' ∧ b = 'b') ∨ (a = 'b' ∧ b = 'g') then some SecondaryColour.Cyan
  else if (a = 'r' ∧ b = 'g') ∨ (a = 'g' ∧ b = 'r') then some SecondaryColour.Yellow
  else if (a = 'r' ∧ b = 'b') ∨ (a = 'b' ∧ b = 'r') then some SecondaryColour.Magenta
  else none

/-- The derived lexicographic order on `(Ratio, char)` pairs used by
`channels.sort()`. -/
def pairLe (a b : ℚ × Char) : Prop :=
  a.1 < b.1 ∨ (a.1 = b.1 ∧ a.2 ≤ b.2)

instance (a b : ℚ × Char) : Decidable (pairLe a b) := by
  unfold pairLe; infer_instance

/-- One compare-and-swap step. -/
def sortPair (a b : ℚ × Char) : (ℚ × Char) × (ℚ × Char) :=
  if pairLe a b then (a, b) else (b, a)

/-- Sorting network for the three `(value, channel-letter)` pairs, modelling
`channels.sort()`.  The three letters are always distinct, so the keys are
totally ordered without ties and every correct sorting algorithm (including
the standard library's stable sort) produces the same output. -/
def sort3 (a b c : ℚ × Char) : (ℚ × Char) × (ℚ × Char) × (ℚ × Char) :=
  let p₁ := sortPair a b
  let p₂ := sortPair p₁.2 c
  let p₃ := sortPair p₁.1 p₂.1
  (p₃.1, p₃.2, p₂.2)

/-- The exact channel triple `(red, green, blue)` computed by `sht_to_rgb`
before the final rounding: `min = tint`, `max = tint + shade * (1 - tint)`,
then reconstruction per variant (direction assignment first, primary second,
as in the source's mutation order). -/
def sht_to_rgb_raw (input : SHT) : ℚ × ℚ × ℚ :=
  let shade := input.shade
  let tint := input.tint
  let mx := tint + shade * (1 - tint)
  let mn := tint
  match input.channelRatios with
  | ChannelRatios.ThreeBrightestChannels => (mn, mn, mn)
  | ChannelRatios.TwoBrightestChannels secondary =>
    match secondary with
    | SecondaryColour.Cyan => (mn, mx, mx)
    | SecondaryColour.Yellow => (mx, mx, mn)
    | SecondaryColour.Magenta => (mx, mn, mx)
  | ChannelRatios.OneBrightestChannel primary directionBlend =>
    let base := (mn, mn, mn)
    let afterDirection :=
      match directionBlend with
      | some (direction, blend) =>
        let centremostChannel := mn + blend * (mx - mn)
        match direction with
        | ColourChannel.Red => (centremostChannel, base.2.1, base.2.2)
        | ColourChannel.Green => (base.1, centremostChannel, base.2.2)
        | ColourChannel.Blue => (base.1, base.2.1, centremostChannel)
      | none => base
    match primary with
    | ColourChannel.Red => (mx, afterDirection.2.1, afterDirection.2.2)
    | ColourChannel.Green => (afterDirection.1, mx, afterDirection.2.2)
    | ColourChannel.Blue => (afterDirection.1, afterDirection.2.1, mx)

/-- `sht_to_rgb`: reconstruct the channels, then round each with
`round_denominator(channel, 16, precision, 1)`. -/
def sht_to_rgb (input : SHT) (precision : ℕ) : ℚ × ℚ × ℚ :=
  let raw := sht_to_rgb_raw input
  (round_denominator raw.1 16 precision 1,
   round_denominator raw.2.1 16 precision 1,
   round_denominator raw.2.2 16 precision 1)

/-- `rgb_to_sht`: sort the tagged channels, compute tint and shade, classify,
and validate.  `none` models the two possible panics: the `expect` guarding
`SHT::new`, and the `char_to_primary`/`chars_to_secondary` helpers. -/
def rgb_to_sht (input : ℚ × ℚ × ℚ) (precision : ℕ) : Option SHT :=
  let round := fun q => round_denominator q 12 precision 0
  let sorted := sort3 (input.1, 'r') (input.2.1, 'g') (input.2.2, 'b')
  let minimum := sorted.1.1
  let middle := sorted.2.1.1
  let midChannel := sorted.2.1.2
  let maximum := sorted.2.2.1
  let maxChannel := sorted.2.2.2
  let tint := round minimum
  let shade :=
    if maximum = 0 then 0
    else if minimum = maximum then 1
    else round ((maximum - minimum) / (1 - minimum))
  let channelRatios? :=
    if maximum > middle then
      (char_to_primary maxChannel).bind fun primary =>
        if middle > minimum then
          (char_to_primary midChannel).map fun direction =>
            ChannelRatios.OneBrightestChannel primary
              (some (direction, round ((middle - minimum) / (maximum - minimum))))
        else
          some (ChannelRatios.OneBrightestChannel primary none)
    else if middle > minimum then
      (chars_to_secondary maxChannel midChannel).map fun secondary =>
        ChannelRatios.TwoBrightestChannels secondary
    else
      some ChannelRatios.ThreeBrightestChannels
  channelRatios?.bind fun channelRatios =>
    match SHT.new channelRatios shade tint with
    | Except.ok sht => some sht
    | Except.error _ => none

/-! ## Duodecimal formatter (sht/mod.rs: `round`, `duodecimal`) -/

/-- Helper for `round`: the `round_up = true` branch on the *reversed* digit
list, so that the `split_last` recursion of the source becomes structural
(the source drops trailing max digits; here they are leading).
`last.checked_add(1).unwrap_or(12)` is modelled with the explicit `u8` bound. -/
def roundUpRev : List ℕ → List ℕ
  | [] => [12]
  | last :: rest =>
    let roundedLast := if last + 1 ≤ 255 then last + 1 else 12
    if 12 ≤ roundedLast then roundUpRev rest
    else roundedLast :: rest

/-- `round(input, round_up)`: possibly round a base 12 digit slice up by one
unit in the last place, carrying through trailing max digits. -/
def roundDigits (input : List ℕ) (roundUp : Bool) : List ℕ :=
  if roundUp then (roundUpRev input.reverse).reverse else input

/-- The digit-to-character table of `duodecimal`; indices outside the table
fall back to the whole-unit sentinel `'W'` (`digit_characters.get(..).unwrap_or(&'W')`). -/
def digitChar (n : ℕ) : Char :=
  List.getD ['0', '1', '2', '3', '4', '5', '6', '7', '8', '9', 'X', 'E'] n 'W'

/-- The digit-extraction loop of `duodecimal`, with `fuel` remaining loop
iterations (so `fuel = 1` is the iteration where `digits_left` is zero and the
rounding decision is taken).  Returns the emitted digits and the `round_up`
flag.  The loop breaks early when the remaining fraction reaches zero. -/
def duoLoop : ℕ → ℚ → List ℕ × Bool
  | 0, _ => ([], false)
  | fuel + 1, input =>
    let scaled := input * 12
    let next := scaled - (ratTrunc scaled : ℚ)
    let roundUpHere := fuel = 0 ∧ 1 / 2 ≤ next
    let integerPart := ratTrunc scaled
    let nextDigit : ℕ := if integerPart < 12 then integerPart.toNat else 12
    if next = 0 then ([nextDigit], decide roundUpHere)
    else
      let rest := duoLoop fuel next
      (nextDigit :: rest.1, decide roundUpHere || rest.2)

/-- `duodecimal`: convert a ratio to a fixed-point base-12 string (as a
character list).  A value at least one short-circuits to `"W"`. -/
def duodecimal (input : ℚ) (precision : ℕ) : List Char :=
  if 1 ≤ input then ['W']
  else
    let extracted := duoLoop precision input
    (roundDigits extracted.1 extracted.2).map digitChar

/-! ## Parser (sht/parser.rs), on top of a model of the nom combinators

A parser is a function from input to `none` (a recoverable nom `Error`) or
`some (remaining input, value)`.  All combinators used by the library are
`complete`-mode and never produce `Failure`/`Incomplete`, so one error case
suffices. -/

/-- Parser type: `none` is a recoverable parse error. -/
def P (α : Type) : Type := List Char → Option (List Char × α)

/-- ASCII lowercasing, as used by nom's case-insensitive tag comparison. -/
def asciiLower (c : Char) : Char :=
  if 'A' ≤ c ∧ c ≤ 'Z' then Char.ofNat (c.toNat + 32) else c

/-- `take(1u8)`: consume exactly one character, returning it as a slice. -/
def take1 : P (List Char) := fun input =>
  match input with
  | [] => none
  | c :: rest => some (rest, [c])

/-- `tag_no_case(t)` for the single-character tags used by the library:
matches the first input character case-insensitively and returns the consumed
input slice (in its original case). -/
def tagNoCase1 (t : Char) : P (List Char) := fun input =>
  match input with
  | [] => none
  | c :: rest => if asciiLower c = asciiLower t then some (rest, [c]) else none

/-- `digit1`: one or more ASCII decimal digits. -/
def digit1 : P (List Char) := fun input =>
  let ds := input.takeWhile fun c => '0' ≤ c ∧ c ≤ '9'
  if ds.isEmpty then none else some (input.drop ds.length, ds)

/-- `alt`: try alternatives in order, backtracking on error. -/
def pAlt (ps : List (P α)) : P α := fun input =>
  match ps with
  | [] => none
  | p :: rest =>
    match p input with
    | some r => some r
    | none => pAlt rest input

/-- `map`. -/
def pMap (p : P α) (f : α → β) : P β := fun input =>
  (p input).map fun r => (r.1, f r.2)

/-- `map_res`: apply a fallible function to the output; its failure is a
recoverable error at the original position. -/
def pMapRes (p : P α) (f : α → Option β) : P β := fun input =>
  (p input).bind fun r => (f r.2).map fun b => (r.1, b)

/-- `value(v, p)`. -/
def pValue (v : α) (p : P β) : P α := pMap p fun _ => v

/-- `opt`. -/
def pOpt (p : P α) : P (Option α) := fun input =>
  match p input with
  | some (rest, a) => some (rest, some a)
  | none => some (input, none)

/-- `pair`. -/
def pPair (p : P α) (q : P β) : P (α × β) := fun input =>
  (p input).bind fun r => (q r.1).map fun s => (s.1, (r.2, s.2))

/-- `tuple((p, q, r))`. -/
def pTuple3 (p : P α) (q : P β) (r : P γ) : P (α × β × γ) := fun input =>
  (p input).bind fun x => (q x.1).bind fun y => (r y.1).map fun z => (z.1, (x.2, y.2, z.2))

/-- `verify`. -/
def pVerify (p : P α) (pred : α → Prop) [DecidablePred pred] : P α := fun input =>
  (p input).bind fun r => if pred r.2 then some r else none

/-- `success`. -/
def pSuccess (v : α) : P α := fun input => some (input, v)

/-- The iteration of `fold_many1` after its first step: repeatedly run the
embedded parser, folding the results, until it errors.  `fuel` bounds the
number of iterations; the embedded parsers used here consume at least one
character per step, so an initial fuel of the input length is never exhausted
(nom itself rejects non-consuming iterations). -/
def foldLoop (f : P α) (g : β → α → β) : ℕ → β → List Char → List Char × β
  | 0, acc, input => (input, acc)
  | fuel + 1, acc, input =>
    match f input with
    | none => (input, acc)
    | some (rest, a) => foldLoop f g fuel (g acc a) rest

/-- `fold_many1(f, init, g)`: like `foldLoop`, but the first application of
`f` must succeed. -/
def foldMany1 (f : P α) (init : β) (g : β → α → β) : P β := fun input =>
  match f input with
  | none => none
  | some (rest, a) => some (foldLoop f g input.length (g init a) rest)

/-! ### The parsers themselves -/

/-- `duodecimal_digit`: take one character and accept it if `alt((tag_no_case
("X"), tag_no_case("E"), digit1))` consumes it entirely.  The returned slice
keeps the input's original case. -/
def duodecimal_digit : P (List Char) := fun input =>
  (take1 input).bind fun r =>
    match pAlt [tagNoCase1 'X', tagNoCase1 'E', digit1] r.2 with
    | some ([], result) => some (r.1, result)
    | some (_ :: _, _) => none
    | none => none

/-- `u8::from_str` restricted to the outputs of `duodecimal_digit` (single
characters): succeeds only on a decimal digit.  In particular the lowercase
slices `"x"`/`"e"` passed through by `tag_no_case` make it fail. -/
def parseU8 (cs : List Char) : Option ℕ :=
  match cs with
  | [c] => if '0' ≤ c ∧ c ≤ '9' then some (c.toNat - 48) else none
  | _ => none

/-- `number_from_digit`: decode a duodecimal digit character to its value. -/
def number_from_digit : P ℕ :=
  pMapRes duodecimal_digit fun character =>
    if character = ['E'] then some 11
    else if character = ['X'] then some 10
    else parseU8 character

/-- `secondary_colour`. -/
def secondary_colour : P SecondaryColour :=
  pAlt [pValue SecondaryColour.Cyan (tagNoCase1 'c'),
        pValue SecondaryColour.Yellow (tagNoCase1 'y'),
        pValue SecondaryColour.Magenta (tagNoCase1 'm')]

/-- `primary_colour`. -/
def primary_colour : P ColourChannel :=
  pAlt [pValue ColourChannel.Red (tagNoCase1 'r'),
        pValue ColourChannel.Green (tagNoCase1 'g'),
        pValue ColourChannel.Blue (tagNoCase1 'b')]

/-- The division loop inside `try_shift_fraction`: divide by the base
`newIndex` times with `Ratio::checked_div`. -/
def divLoop (M base : ℕ) : ℕ → ℚ → Option ℚ
  | 0, number => some number
  | n + 1, number => (checkedDivInt M number base).bind (divLoop M base n)

/-- `try_shift_fraction(base, digit, index)`: `index.checked_add(1)` on `u8`,
then `digit / base ^ (index + 1)` via repeated checked division.  `none` when
the index increment or any division overflows. -/
def try_shift_fraction (M base digit index : ℕ) : Option (ℕ × ℚ) :=
  if index + 1 ≤ 255 then
    (divLoop M base (index + 1) (digit : ℚ)).map fun number => (index + 1, number)
  else none

/-- The `and_then` chain inside the `quantity` fold closure: shift the digit to
its place and add it to the accumulated number, both with checked arithmetic.
`none` when either step overflows. -/
def stepIncorporates (M length : ℕ) (number : ℚ) (digit : ℕ) : Option (ℕ × ℚ) :=
  (try_shift_fraction M 12 digit length).bind
    fun shifted => (checkedAdd M number shifted.2).map fun n => (shifted.1, n)

/-- One step of the `fold_many1` closure inside `quantity`: incorporate the
digit if shifting and adding both succeed (resetting the rounding flag),
otherwise keep the accumulator and record whether the first overflowing digit
since the last incorporation was at least half the base
(`round_up.or_else(|| Some(digit >= half_base()))`). -/
def digit_folder (M : ℕ) (state : ℕ × ℚ × Option Bool) (digit : ℕ) : ℕ × ℚ × Option Bool :=
  match stepIncorporates M state.1 state.2.1 digit with
  | some (length, number) => (length, number, none)
  | none => (state.1, state.2.1, state.2.2.orElse fun _ => some (decide (6 ≤ digit)))

/-- The post-fold step of `quantity`: if the rounding flag is set, add a
correction of one unit in the last incorporated place (`try_shift_fraction
(base, 1, length - 1)`), or zero when even the correction overflows. -/
def quantityFinish (M : ℕ) (state : ℕ × ℚ × Option Bool) : ℚ :=
  match state.2.2 with
  | some true =>
    state.2.1 + (((try_shift_fraction M 12 1 (state.1 - 1)).map Prod.snd).getD 0)
  | _ => state.2.1

/-- `quantity`: fold duodecimal digits into a ratio, rounding on overflow. -/
def quantity (M : ℕ) : P ℚ := fun input =>
  match foldMany1 number_from_digit ((0 : ℕ), (0 : ℚ), (none : Option Bool))
      (digit_folder M) input with
  | none => none
  | some (rest, state) => some (rest, quantityFinish M state)

/-- The digit-list version of the fold inside `quantity` (the parser feeds the
decoded digits to `digit_folder` left to right). -/
def foldState (M : ℕ) (digits : List ℕ) : ℕ × ℚ × Option Bool :=
  digits.foldl (digit_folder M) ((0 : ℕ), (0 : ℚ), (none : Option Bool))

/-- The value `quantity` computes for a given decoded digit list. -/
def quantityValue (M : ℕ) (digits : List ℕ) : ℚ :=
  quantityFinish M (foldState M digits)

/-- Modelled from the spec: the quantity value the specification describes.
Digits at 1-indexed positions `i` with `12 ^ i` representable contribute
`dᵢ / 12 ^ i`; later digits are not added; if the first digit past that point
is at least `6`, a single correction of `12 ^ -(i - 1)` (one unit in the last
kept place) is added. -/
def specQuantity (M : ℕ) (digits : List ℕ) : ℚ :=
  let kept := ((List.range digits.length).takeWhile fun j => 12 ^ (j + 1) ≤ M).length
  let exact := ((List.range kept).map fun j => ((digits.getD j 0 : ℚ) / 12 ^ (j + 1))).sum
  if kept < digits.length ∧ 6 ≤ digits.getD kept 0 then exact + 1 / 12 ^ kept
  else exact

/-- `direction_blend`: a blend quantity followed by a primary colour. -/
def direction_blend (M : ℕ) : P (ColourChannel × ℚ) := fun input =>
  (pPair (quantity M) primary_colour input).map fun r => (r.1, (r.2.2, r.2.1))

/-- `channel_ratios`. -/
def channel_ratios (M : ℕ) : P ChannelRatios :=
  pAlt [pMap (pPair primary_colour (pOpt (direction_blend M))) fun pr =>
          ChannelRatios.OneBrightestChannel pr.1 pr.2,
        pMap secondary_colour fun secondary =>
          ChannelRatios.TwoBrightestChannels secondary]

/-- `sht_data`: try the grammar alternatives in order. -/
def sht_data (M : ℕ) : P (Option ℚ × ChannelRatios × Option ℚ) :=
  let zeroShade := pMap (pVerify (quantity M) fun v => v = 0) some
  let shade := quantity M
  let emptyChannel := pSuccess ChannelRatios.ThreeBrightestChannels
  let emptyQuantity := pSuccess (none : Option ℚ)
  let tint := pVerify (quantity M) fun v => ¬v = 0
  pAlt [pTuple3 (pOpt shade) (channel_ratios M) (pOpt tint),
        pTuple3 zeroShade emptyChannel emptyQuantity,
        pTuple3 emptyQuantity emptyChannel (pMap tint some),
        pValue (none, ChannelRatios.ThreeBrightestChannels, some (1 : ℚ))
          (tagNoCase1 'W')]

/-- Errors of `parse_sht`.  The nom error payload carried by `ParseFailure`
is not inspected by any caller and is abstracted away. -/
inductive ParsePropertyError : Type
  | ValueErrors (errors : List SHTValueError)
  | ParseFailure
  | InputRemaining (remaining : List Char)
deriving DecidableEq, Repr

/-- `parse_sht`: run `sht_data`; demand empty leftover input; default the
shade to 1 and the tint to 0; validate with `SHT::new`. -/
def parse_sht (M : ℕ) (input : List Char) : Except ParsePropertyError SHT :=
  match sht_data M input with
  | some ([], (shade, channelRatios, tint)) =>
    match SHT.new channelRatios (shade.getD 1) (tint.getD 0) with
    | Except.ok sht => Except.ok sht
    | Except.error errs => Except.error (ParsePropertyError.ValueErrors errs)
  | some (c :: remaining, _) => Except.error (ParsePropertyError.InputRemaining (c :: remaining))
  | none => Except.error ParsePropertyError.ParseFailure

/-- The panic conditions of `quantity` on a given input (the only panicking
operations on the parse path, given `12 ≤ M`): the `u8` subtraction
`length - 1` with `length = 0`, and the unchecked `Ratio` addition
`number + correction`. -/
def quantityPanics (M : ℕ) (input : List Char) : Prop :=
  match foldMany1 number_from_digit ((0 : ℕ), (0 : ℚ), (none : Option Bool))
      (digit_folder M) input with
  | none => False
  | some (_, state) =>
    state.2.2 = some true ∧
      (state.1 = 0 ∨
        match try_shift_fraction M 12 1 (state.1 - 1) with
        | some (_, correction) => addPanics M state.2.1 correction
        | none => False)

/-- Invariant of the `quantity` fold state (for `12 ≤ M`): the accumulated
number is a fraction `n / 12 ^ length` with `n < 12 ^ length`, and while no
digit has been consumed the state is still the initial one. -/
def QInv (s : ℕ × ℚ × Option Bool) : Prop :=
  (∃ n : ℕ, n < 12 ^ s.1 ∧ s.2.1 = (n : ℚ) / (12 : ℚ) ^ s.1) ∧
  (s.1 = 0 → s.2.1 = 0 ∧ s.2.2 = none)

/-- Decidable equality for `Except`, needed to state concrete facts about
`parse_sht` results. -/
instance exceptDecEq {ε α : Type} [DecidableEq ε] [DecidableEq α] :
    DecidableEq (Except ε α) := fun x y =>
  match x, y with
  | Except.error e, Except.error f =>
    match decEq e f with
    | isTrue h => isTrue (h ▸ rfl)
    | isFalse h => isFalse fun c => h (Except.error.inj c)
  | Except.error _, Except.ok _ => isFalse fun c => Except.noConfusion c
  | Except.ok _, Except.error _ => isFalse fun c => Except.noConfusion c
  | Except.ok a, Except.ok b =>
    match decEq a b with
    | isTrue h => isTrue (h ▸ rfl)
    | isFalse h => isFalse fun c => h (Except.ok.inj c)

/-! ## Concrete values for the specification's base examples

`u8Max`/`u32Max` are the bounds of the `u8`/`u32` instantiations used in the
library's tests.  The `sht_*` values are the denotations of the example SHT
codes, and the `rgb_*` triples are the channel ratios of the example hex codes
(an `N`-hex-digit channel is a fraction over `16 ^ N - 1`, so two digits are
over `255`). -/

/-- Bound of the `u8` backing type. -/
abbrev u8Max : ℕ := 255

/-- Bound of the `u32` backing type. -/
abbrev u32Max : ℕ := 4294967295

/-- The SHT value of the code `"8y3"`. -/
def sht_8y3 : SHT := ⟨ChannelRatios.TwoBrightestChannels SecondaryColour.Yellow, 2/3, 1/4⟩

/-- The SHT value of the code `"r"`. -/
def sht_r : SHT := ⟨ChannelRatios.OneBrightestChannel ColourChannel.Red none, 1, 0⟩

/-- The SHT value of the code `"8r"`. -/
def sht_8r : SHT := ⟨ChannelRatios.OneBrightestChannel ColourChannel.Red none, 2/3, 0⟩

/-- The SHT value of the code `"r6g"`. -/
def sht_r6g : SHT :=
  ⟨ChannelRatios.OneBrightestChannel ColourChannel.Red (some (ColourChannel.Green, 1/2)), 1, 0⟩

/-- The SHT value of the code `"6"`. -/
def sht_6 : SHT := ⟨ChannelRatios.ThreeBrightestChannels, 1, 1/2⟩

/-- The SHT value of the code `"0"`. -/
def sht_0 : SHT := ⟨ChannelRatios.ThreeBrightestChannels, 0, 0⟩

/-- The SHT value of the code `"W"`. -/
def sht_W : SHT := ⟨ChannelRatios.ThreeBrightestChannels, 1, 1⟩

/-- Channel ratios of `#bfbf40`. -/
def rgb_bfbf40 : ℚ × ℚ × ℚ := (191/255, 191/255, 64/255)

/-- Channel ratios of `#ff0000`. -/
def rgb_ff0000 : ℚ × ℚ × ℚ := (1, 0, 0)

/-- Channel ratios of `#aa0000`. -/
def rgb_aa0000 : ℚ × ℚ × ℚ := (2/3, 0, 0)

/-- Channel ratios of `#ff8000`. -/
def rgb_ff8000 : ℚ × ℚ × ℚ := (1, 128/255, 0)

/-- Channel ratios of `#808080`. -/
def rgb_808080 : ℚ × ℚ × ℚ := (128/255, 128/255, 128/255)

/-- Channel ratios of `#000000`. -/
def rgb_000000 : ℚ × ℚ × ℚ := (0, 0, 0)

/-- Channel ratios of `#ffffff`. -/
def rgb_ffffff : ℚ × ℚ × ℚ := (1, 1, 1)

/-! ## Claim C1 -/

/-- C1, counterexample.  The claim says that whenever `base ^ exponent`
overflows the backing type, `round_denominator` surfaces an explicit
`Overflow` error value instead of terminating the process.  At `u8` with
`base = 12`, `exponent = 3`, the exponentiation overflows
(`checkedPow = none`) and `round_denominator` hits its
`expect("Overflow calculating denominator")`, i.e. it panics — modelled by
the `none` result of `round_denominator_checked`.  There is no error value. -/
theorem c1_counterexample :
    checkedPow u8Max 12 3 = none ∧
    round_denominator_checked u8Max (1/2) 12 3 0 = none := by decide

/-- C1, amended: on every input whose exponentiation overflows the backing
integer type, `round_denominator` panics (it calls `expect` on the failed
`checked_pow`); the public conversions built on it propagate that panic.
There is no `Overflow` result value on this path. -/
theorem c1_overflow_panics (M : ℕ) (q : ℚ) (base exponent negativeOffset : ℕ)
    (h : checkedPow M base exponent = none) :
    round_denominator_checked M q base exponent negativeOffset = none := by
  unfold round_denominator_checked
  rw [h]
  rfl

/-- Witness for C1: a concrete overflowing input for `c1_overflow_panics`. -/
theorem c1_overflow_panics_witness :
    round_denominator_checked u8Max (2/3) 12 4 1 = none :=
  c1_overflow_panics u8Max (2/3) 12 4 1 (by decide)

/-! ## Claim C3 -/

/-- C3: at precision 2, the conversions are mutually inverse on the
specification's base examples.  For each pair, the string parses to the stated
SHT value, `rgb_to_sht` maps the hex colour's channel ratios to that value,
and `sht_to_rgb` maps the value back to the channel ratios. -/
theorem c3_conversion_identities :
    (parse_sht u32Max "8y3".data = Except.ok sht_8y3 ∧
      rgb_to_sht rgb_bfbf40 2 = some sht_8y3 ∧ sht_to_rgb sht_8y3 2 = rgb_bfbf40) ∧
    (parse_sht u32Max "r".data = Except.ok sht_r ∧
      rgb_to_sht rgb_ff0000 2 = some sht_r ∧ sht_to_rgb sht_r 2 = rgb_ff0000) ∧
    (parse_sht u32Max "8r".data = Except.ok sht_8r ∧
      rgb_to_sht rgb_aa0000 2 = some sht_8r ∧ sht_to_rgb sht_8r 2 = rgb_aa0000) ∧
    (parse_sht u32Max "r6g".data = Except.ok sht_r6g ∧
      rgb_to_sht rgb_ff8000 2 = some sht_r6g ∧ sht_to_rgb sht_r6g 2 = rgb_ff8000) ∧
    (parse_sht u32Max "6".data = Except.ok sht_6 ∧
      rgb_to_sht rgb_808080 2 = some sht_6 ∧ sht_to_rgb sht_6 2 = rgb_808080) ∧
    (parse_sht u32Max "0".data = Except.ok sht_0 ∧
      rgb_to_sht rgb_000000 2 = some sht_0 ∧ sht_to_rgb sht_0 2 = rgb_000000) ∧
    (parse_sht u32Max "W".data = Except.ok sht_W ∧
      rgb_to_sht rgb_ffffff 2 = some sht_W ∧ sht_to_rgb sht_W 2 = rgb_ffffff) :=
  of_decide_eq_true (by with_unfolding_all rfl)

/-! ## Claim C5 -/

/-- C5, counterexample.  The claim says parsing `"W"` yields shade `0`; the
parser leaves the shade component unset on the `"W"` alternative, so
`parse_sht` fills in the *default* shade `1` (`shade.unwrap_or_else(one)`),
in line with the crate's own doc example for `"W"`. -/
theorem c5_counterexample :
    parse_sht u32Max "W".data ≠
      Except.ok ⟨ChannelRatios.ThreeBrightestChannels, 0, 1⟩ ∧
    parse_sht u32Max "W".data =
      Except.ok ⟨ChannelRatios.ThreeBrightestChannels, 1, 1⟩ :=
  of_decide_eq_true (by with_unfolding_all rfl)

/-- C5, amended: parsing `"W"` succeeds with
`channel_ratios = ThreeBrightestChannels`, shade `1` (the default for an
unspecified shade, which `Display` omits), and tint `1` — at every backing
integer width, since the `"W"` alternative performs no arithmetic. -/
theorem c5_parse_W (M : ℕ) :
    parse_sht M "W".data =
      Except.ok ⟨ChannelRatios.ThreeBrightestChannels, 1, 1⟩ := rfl

/-! ## Claim C6 -/

/-- C6, counterexample.  The claim says digit precision 0 yields `"0"` for
values below one; the extraction loop runs zero times and `duodecimal`
returns the empty string instead. -/
theorem c6_counterexample :
    duodecimal (1/2) 0 ≠ ['0'] ∧ duodecimal (1/2) 0 = [] :=
  of_decide_eq_true (by with_unfolding_all rfl)

/-- C6, amended: the formatter renders every value at least 1 as `"W"` at
every precision, and at digit precision 0 it yields the *empty* string for
every value strictly below 1. -/
theorem c6_formatter_bounds (q : ℚ) (p : ℕ) :
    (1 ≤ q → duodecimal q p = ['W']) ∧ (q < 1 → duodecimal q 0 = []) := by
  constructor
  · intro h
    unfold duodecimal
    rw [if_pos h]
  · intro h
    unfold duodecimal
    rw [if_neg (not_le.mpr h)]
    rfl

/-- Witness for C6 at concrete inputs. -/
theorem c6_formatter_bounds_witness :
    duodecimal (3/2) 5 = ['W'] ∧ duodecimal (1/2) 0 = [] :=
  ⟨(c6_formatter_bounds (3/2) 5).1 (by norm_num),
   (c6_formatter_bounds (1/2) 0).2 (by norm_num)⟩

/-! ## Claim C7 -/

/-- C7: `SHT::new` collects every violated invariant.  Constructing an SHT
with a `OneBrightestChannel` classification, shade `0` and tint `1` returns an
error list containing both `PrimaryShadeZero` and `PrimaryTintOne`, whatever
the primary and the optional direction/blend. -/
theorem c7_validator_completeness (primary : ColourChannel)
    (directionBlend : Option (ColourChannel × ℚ)) :
    ∃ errs,
      SHT.new (ChannelRatios.OneBrightestChannel primary directionBlend) 0 1 =
        Except.error errs ∧
      SHTValueError.PrimaryShadeZero ∈ errs ∧ SHTValueError.PrimaryTintOne ∈ errs := by
  cases directionBlend with
  | none => exact ⟨_, rfl, by simp, by simp⟩
  | some db => exact ⟨_, rfl, by simp, by simp⟩

/-! ## Claim C8 -/

/-- C8: whenever a grammar alternative succeeds but leaves unconsumed input,
`parse_sht` fails with `InputRemaining` carrying exactly the unconsumed
suffix — never with `ParseFailure`. -/
theorem c8_input_remaining (M : ℕ) (input rem : List Char)
    (parts : Option ℚ × ChannelRatios × Option ℚ)
    (h : sht_data M input = some (rem, parts)) (hne : rem ≠ []) :
    parse_sht M input = Except.error (ParsePropertyError.InputRemaining rem) := by
  unfold parse_sht
  rw [h]
  cases rem with
  | nil => exact absurd rfl hne
  | cons c t => rfl

/-- Witness for C8: `"rr"` and `"r0"` each match a proper prefix
(`OneBrightestChannel Red` from the leading `r`), and `parse_sht` reports
`InputRemaining "r"` and `InputRemaining "0"` respectively. -/
theorem c8_input_remaining_witness :
    (sht_data u32Max "rr".data =
        some ("r".data,
          (none, ChannelRatios.OneBrightestChannel ColourChannel.Red none, none)) ∧
      parse_sht u32Max "rr".data =
        Except.error (ParsePropertyError.InputRemaining "r".data)) ∧
    (sht_data u32Max "r0".data =
        some ("0".data,
          (none, ChannelRatios.OneBrightestChannel ColourChannel.Red none, none)) ∧
      parse_sht u32Max "r0".data =
        Except.error (ParsePropertyError.InputRemaining "0".data)) := by
  have h1 : sht_data u32Max "rr".data =
      some ("r".data,
        (none, ChannelRatios.OneBrightestChannel ColourChannel.Red none, none)) :=
    of_decide_eq_true (by with_unfolding_all rfl)
  have h2 : sht_data u32Max "r0".data =
      some ("0".data,
        (none, ChannelRatios.OneBrightestChannel ColourChannel.Red none, none)) :=
    of_decide_eq_true (by with_unfolding_all rfl)
  exact ⟨⟨h1, c8_input_remaining _ _ _ _ h1 (by decide)⟩,
         ⟨h2, c8_input_remaining _ _ _ _ h2 (by decide)⟩⟩

/-! ## Claim C10 -/

/-- C10, counterexample.  The claim says parsing is case-insensitive in all
letters including the digits `X` and `E`.  But `"E"` parses while its case
variant `"e"` fails: `duodecimal_digit` admits the lowercase letter via
`tag_no_case` yet returns the *input* slice `"e"`, which `number_from_digit`
then fails to convert (its match only covers `"E"`/`"X"` and decimal
digits) — exactly the behaviour pinned by the crate's `parse_only_digits`
test. -/
theorem c10_counterexample :
    parse_sht u32Max "E".data =
      Except.ok ⟨ChannelRatios.ThreeBrightestChannels, 1, 11/12⟩ ∧
    parse_sht u32Max "e".data = Except.error ParsePropertyError.ParseFailure :=
  of_decide_eq_true (by with_unfolding_all rfl)

/-- C10, amended: parsing is case-insensitive in the colour letters
`r`, `g`, `b`, `c`, `y`, `m` and in the white sentinel `W` (each uppercase
variant parses to the same value as the lowercase code), but *not* in the
duodecimal digits: `X` and `E` are accepted in uppercase only. -/
theorem c10_case_insensitive_letters :
    (parse_sht u32Max "R".data = parse_sht u32Max "r".data ∧
      parse_sht u32Max "r".data = Except.ok sht_r) ∧
    (parse_sht u32Max "G".data = parse_sht u32Max "g".data ∧
      parse_sht u32Max "g".data =
        Except.ok ⟨ChannelRatios.OneBrightestChannel ColourChannel.Green none, 1, 0⟩) ∧
    (parse_sht u32Max "B".data = parse_sht u32Max "b".data ∧
      parse_sht u32Max "b".data =
        Except.ok ⟨ChannelRatios.OneBrightestChannel ColourChannel.Blue none, 1, 0⟩) ∧
    (parse_sht u32Max "C".data = parse_sht u32Max "c".data ∧
      parse_sht u32Max "c".data =
        Except.ok ⟨ChannelRatios.TwoBrightestChannels SecondaryColour.Cyan, 1, 0⟩) ∧
    (parse_sht u32Max "Y".data = parse_sht u32Max "y".data ∧
      parse_sht u32Max "y".data =
        Except.ok ⟨ChannelRatios.TwoBrightestChannels SecondaryColour.Yellow, 1, 0⟩) ∧
    (parse_sht u32Max "M".data = parse_sht u32Max "m".data ∧
      parse_sht u32Max "m".data =
        Except.ok ⟨ChannelRatios.TwoBrightestChannels SecondaryColour.Magenta, 1, 0⟩) ∧
    (parse_sht u32Max "w".data = parse_sht u32Max "W".data ∧
      parse_sht u32Max "W".data = Except.ok sht_W) ∧
    (parse_sht u32Max "8Y3".data = parse_sht u32Max "8y3".data ∧
      parse_sht u32Max "8y3".data = Except.ok sht_8y3) ∧
    (parse_sht u32Max "x".data = Except.error ParsePropertyError.ParseFailure ∧
      parse_sht u32Max "X".data =
        Except.ok ⟨ChannelRatios.ThreeBrightestChannels, 1, 10/12⟩) :=
  of_decide_eq_true (by with_unfolding_all rfl)

/-! ## Claim C2 -/

/-- A successful `try_shift_fraction` increments the index by one. -/
theorem try_shift_fraction_fst {M base digit index : ℕ} {r : ℕ × ℚ}
    (h : try_shift_fraction M base digit index = some r) : r.1 = index + 1 := by
  unfold try_shift_fraction at h
  split at h
  · cases hdiv : divLoop M base (index + 1) (digit : ℚ) with
    | none => rw [hdiv] at h; cases h
    | some q => rw [hdiv] at h; cases h; rfl
  · cases h

/-- A successful incorporation step increments the length by one. -/
theorem stepIncorporates_fst {M len : ℕ} {num : ℚ} {d : ℕ} {r : ℕ × ℚ}
    (h : stepIncorporates M len num d = some r) : r.1 = len + 1 := by
  unfold stepIncorporates at h
  cases hshift : try_shift_fraction M 12 d len with
  | none => rw [hshift] at h; cases h
  | some sh =>
    rw [hshift] at h
    cases hadd : checkedAdd M num sh.2 with
    | none => simp [hadd] at h
    | some n =>
      simp only [Option.some_bind, hadd, Option.map_some'] at h
      obtain rfl := Option.some.inj h
      exact (try_shift_fraction_fst hshift : sh.1 = len + 1)

/-- Each fold step either incorporates the digit (incrementing the length and
clearing the flag) or leaves length and number unchanged, recording the
rounding flag for the first failure. -/
theorem digit_folder_cases (M : ℕ) (s : ℕ × ℚ × Option Bool) (d : ℕ) :
    (∃ q, digit_folder M s d = (s.1 + 1, q, none)) ∨
    (stepIncorporates M s.1 s.2.1 d = none ∧
      digit_folder M s d = (s.1, s.2.1, s.2.2.orElse fun _ => some (decide (6 ≤ d)))) := by
  cases hstep : stepIncorporates M s.1 s.2.1 d with
  | none =>
    right
    refine ⟨rfl, ?_⟩
    unfold digit_folder
    rw [hstep]
  | some r =>
    left
    obtain ⟨l, q⟩ := r
    have hl : l = s.1 + 1 := stepIncorporates_fst hstep
    subst hl
    refine ⟨q, ?_⟩
    unfold digit_folder
    rw [hstep]

/-- The fold can grow the length by at most one per digit. -/
theorem foldl_digit_folder_length_le (M : ℕ) (l : List ℕ) (s : ℕ × ℚ × Option Bool) :
    (List.foldl (digit_folder M) s l).1 ≤ s.1 + l.length := by
  induction l generalizing s with
  | nil => simp
  | cons d t ih =>
    rw [List.foldl_cons]
    refine le_trans (ih (digit_folder M s d)) ?_
    rcases digit_folder_cases M s d with ⟨q, heq⟩ | ⟨_, heq⟩ <;>
      · rw [heq]; simp; try omega

/-- If the fold over `l` grew the length by exactly `l.length`, every step
incorporated its digit; in particular the final flag is clear (or the list was
empty and the state is unchanged). -/
theorem foldl_digit_folder_all_success (M : ℕ) (l : List ℕ) (s : ℕ × ℚ × Option Bool)
    (h : (List.foldl (digit_folder M) s l).1 = s.1 + l.length) :
    (l = [] → List.foldl (digit_folder M) s l = s) ∧
    (l ≠ [] → (List.foldl (digit_folder M) s l).2.2 = none) := by
  induction l generalizing s with
  | nil => exact ⟨fun _ => rfl, fun hne => absurd rfl hne⟩
  | cons d t ih =>
    rw [List.foldl_cons] at h ⊢
    rcases digit_folder_cases M s d with ⟨q, heq⟩ | ⟨_, heq⟩
    · rw [heq] at h ⊢
      have h' : (List.foldl (digit_folder M) (s.1 + 1, q, none) t).1 = (s.1 + 1) + t.length := by
        rw [h, List.length_cons]
        omega
      refine ⟨fun hc => List.noConfusion hc, fun _ => ?_⟩
      cases t with
      | nil => exact congrArg (fun x => x.2.2) ((ih _ h').1 rfl)
      | cons d' t' => exact (ih _ h').2 (by simp)
    · exfalso
      rw [heq] at h
      have := foldl_digit_folder_length_le M t (s.1, s.2.1, s.2.2.orElse fun _ =>
        some (decide (6 ≤ d)))
      rw [h] at this
      simp at this

/-- Once the flag is set, a run of digits that all fail to incorporate leaves
the state completely unchanged (`or_else` keeps the first recorded flag). -/
theorem foldl_digit_folder_all_fail (M : ℕ) (t : List ℕ) (len : ℕ) (num : ℚ) (b : Bool)
    (hf : ∀ d ∈ t, stepIncorporates M len num d = none) :
    List.foldl (digit_folder M) (len, num, some b) t = (len, num, some b) := by
  induction t with
  | nil => rfl
  | cons d t' ih =>
    rw [List.foldl_cons]
    have hstep : digit_folder M (len, num, some b) d = (len, num, some b) := by
      unfold digit_folder
      rw [hf d (by simp)]
      rfl
    rw [hstep]
    exact ih fun d' hd' => hf d' (by simp [hd'])

/-- C2, counterexample.  The claim says digits past the overflow point are
never added and that the first such digit being at least 6 always yields a
single correction.  At `u8`, folding `"08E8"`: the third digit (`E`) fails to
incorporate (denominator `12³ = 1728` overflows), but the fourth digit (`8`)
*is* incorporated (after reduction `8/12³ = 1/216` and the sum `13/216` are
representable), and the pending rounding flag is reset, so no correction is
applied.  The code yields `13/216`, whereas the behaviour described by the
claim (`specQuantity`, modelled from the spec's words) yields
`0/12 + 8/144 + 12⁻² = 1/16`. -/
theorem c2_counterexample :
    quantity u8Max "08E8".data = some ([], 13/216) ∧
    specQuantity u8Max [0, 8, 11, 8] = 1/16 ∧
    (13/216 : ℚ) ≠ 1/16 :=
  of_decide_eq_true (by with_unfolding_all rfl)

/-- C2, amended: when the digits *before* some point are all incorporated
exactly (the fold length equals their count) and every digit from that point
on fails to incorporate (its shifted value or the sum overflows), then none of
the failing digits are added and, if and only if the first failing digit is at
least 6, a single rounding correction of one unit in the last incorporated
place (`try_shift_fraction(12, 1, length - 1)`, itself dropped if that place
overflows) is added once folding completes.  (A later representable digit
would still be incorporated and would reset the pending flag — see the
counterexample.)  In particular folding `"EEEE"` at `u8` width yields exactly
the ratio 1. -/
theorem c2_overflow_rounding :
    (∀ (M : ℕ) (pre rest : List ℕ) (d₀ : ℕ),
      (foldState M pre).1 = pre.length →
      (∀ d ∈ d₀ :: rest,
        stepIncorporates M (foldState M pre).1 (foldState M pre).2.1 d = none) →
      quantityValue M (pre ++ d₀ :: rest) =
        (foldState M pre).2.1 +
          (if 6 ≤ d₀ then
            (((try_shift_fraction M 12 1 ((foldState M pre).1 - 1)).map Prod.snd).getD 0)
          else 0)) ∧
    quantity u8Max "EEEE".data = some ([], 1) := by
  constructor
  · intro M pre rest d₀ hall hfail
    have hflag : (foldState M pre).2.2 = none := by
      rcases foldl_digit_folder_all_success M pre ((0 : ℕ), (0 : ℚ), (none : Option Bool))
          (by simpa [foldState] using hall) with ⟨hnil, hcons⟩
      cases pre with
      | nil => rw [foldState]; rfl
      | cons p ps => exact hcons (by simp)
    have hstep : digit_folder M (foldState M pre) d₀ =
        ((foldState M pre).1, (foldState M pre).2.1, some (decide (6 ≤ d₀))) := by
      unfold digit_folder
      rw [hfail d₀ (by simp)]
      rw [hflag]
      rfl
    have hfold : foldState M (pre ++ d₀ :: rest) =
        ((foldState M pre).1, (foldState M pre).2.1, some (decide (6 ≤ d₀))) := by
      unfold foldState
      rw [List.foldl_append, List.foldl_cons]
      have h1 : List.foldl (digit_folder M) ((0 : ℕ), (0 : ℚ), (none : Option Bool)) pre =
          foldState M pre := rfl
      rw [h1, hstep]
      exact foldl_digit_folder_all_fail M rest _ _ _
        fun d hd => hfail d (by simp [hd])
    unfold quantityValue
    rw [hfold]
    by_cases h6 : 6 ≤ d₀
    · simp only [quantityFinish, decide_eq_true h6, if_pos h6]
    · have : decide (6 ≤ d₀) = false := by simpa using h6
      rw [this, if_neg h6, add_zero]
      rfl
  · exact of_decide_eq_true (by with_unfolding_all rfl)

/-- Witness for C2: the `"EEEE"` instance at `u8`, obtained from the general
statement with `pre = [11, 11]` (both incorporated, accumulating `143/144`)
and failing suffix `[11, 11]`; the correction `1/144` carries the value to
exactly 1, matching the direct evaluation of the parser. -/
theorem c2_overflow_rounding_witness :
    quantityValue u8Max [11, 11, 11, 11] = 1 ∧
    quantity u8Max "EEEE".data = some ([], 1) := by
  constructor
  · have h := c2_overflow_rounding.1 u8Max [11, 11] [11] 11
      (of_decide_eq_true (by with_unfolding_all rfl))
      (by
        intro d hd
        have hd' : d = 11 := by
          rcases List.mem_cons.mp hd with h | h
          · exact h
          · simpa using h
        subst hd'
        exact of_decide_eq_true (by with_unfolding_all rfl))
    refine Eq.trans (by exact_mod_cast h) ?_
    exact of_decide_eq_true (by with_unfolding_all rfl)
  · exact c2_overflow_rounding.2

/-! ## Claim C9 -/

/-- A successful `checkedDivInt` returns the exact quotient, with its reduced
numerator and denominator representable. -/
theorem checkedDivInt_some {M : ℕ} {x : ℚ} {b : ℕ} {r : ℚ}
    (h : checkedDivInt M x b = some r) :
    r = x / (b : ℚ) ∧ r.num.natAbs ≤ M ∧ r.den ≤ M := by
  simp only [checkedDivInt] at h
  split at h
  · cases h
  · split at h
    · cases h
      exact ⟨rfl, by assumption⟩
    · cases h

/-- A successful `checkedAdd` returns the exact sum. -/
theorem checkedAdd_some {M : ℕ} {q r v : ℚ} (h : checkedAdd M q r = some v) :
    v = q + r := by
  simp only [checkedAdd] at h
  split at h
  · cases h; rfl
  · cases h

/-- `checkedAdd` of zero and a representable value succeeds. -/
theorem checkedAdd_zero_left (M : ℕ) (r : ℚ) (h1 : r.den ≤ M)
    (h2 : r.num.natAbs ≤ M) : checkedAdd M 0 r = some r := by
  simp only [checkedAdd]
  rw [show (0 : ℚ).den = 1 from rfl, show (0 : ℚ).num = 0 from rfl]
  rw [Nat.gcd_one_left, Nat.div_one, Nat.one_mul, Int.natAbs_zero, Nat.zero_mul,
    Nat.div_self r.den_pos, Nat.mul_one]
  rw [if_pos ⟨h1, Nat.zero_le M, h2, by omega⟩, zero_add]

/-- The division loop computes exact division by `base ^ k`. -/
theorem divLoop_value (M base : ℕ) :
    ∀ (k : ℕ) (x q : ℚ), divLoop M base k x = some q → q = x / (base : ℚ) ^ k := by
  intro k
  induction k with
  | zero =>
    intro x q h
    cases h
    simp
  | succ k ih =>
    intro x q h
    unfold divLoop at h
    cases hdiv : checkedDivInt M x base with
    | none => rw [hdiv] at h; cases h
    | some r =>
      rw [hdiv] at h
      have hr := (checkedDivInt_some hdiv).1
      have := ih r q h
      subst hr
      rw [this, div_div, ← pow_succ']

/-- When the division loop succeeds on a value `1 / 12 ^ j` and runs at least
once, the final denominator `12 ^ (j + k)` is representable. -/
theorem divLoop_one_bound (M : ℕ) :
    ∀ (k j : ℕ) (x q : ℚ), x = 1 / (12 : ℚ) ^ j → divLoop M 12 k x = some q →
      1 ≤ k → (12 : ℕ) ^ (j + k) ≤ M := by
  intro k
  induction k with
  | zero => intro j x q _ _ hk; cases hk
  | succ k ih =>
    intro j x q hx h _
    unfold divLoop at h
    cases hdiv : checkedDivInt M x 12 with
    | none => rw [hdiv] at h; cases h
    | some r =>
      rw [hdiv] at h
      obtain ⟨hr, _, hden⟩ := checkedDivInt_some hdiv
      have hr' : r = 1 / (12 : ℚ) ^ (j + 1) := by
        rw [hr, hx]
        push_cast
        rw [div_div, ← pow_succ]
      have hrden : r.den = 12 ^ (j + 1) := by
        rw [hr', show ((1 : ℚ) / (12 : ℚ) ^ (j + 1)) = (((12 ^ (j + 1) : ℕ) : ℚ))⁻¹ by
          rw [one_div, Nat.cast_pow, Nat.cast_ofNat]]
        rw [Rat.inv_natCast_den]
        simp
      cases k with
      | zero =>
        have : (12 : ℕ) ^ (j + 1) ≤ M := by rw [← hrden]; exact hden
        simpa using this
      | succ k' =>
        have hb := ih (j + 1) r q hr' h (by omega)
        have harith : j + 1 + (k' + 1) = j + (k' + 1 + 1) := by omega
        rw [harith] at hb
        exact hb

/-- Denominator of the unit fraction `1 / 12 ^ m`. -/
theorem one_div_pow_den (m : ℕ) : ((1 : ℚ) / (12 : ℚ) ^ m).den = 12 ^ m := by
  rw [show ((1 : ℚ) / (12 : ℚ) ^ m) = (((12 ^ m : ℕ) : ℚ))⁻¹ by
    rw [one_div, Nat.cast_pow, Nat.cast_ofNat]]
  rw [Rat.inv_natCast_den]
  simp

/-- Numerator of the unit fraction `1 / 12 ^ m`. -/
theorem one_div_pow_num (m : ℕ) : ((1 : ℚ) / (12 : ℚ) ^ m).num = 1 := by
  rw [show ((1 : ℚ) / (12 : ℚ) ^ m) = (((12 ^ m : ℕ) : ℚ))⁻¹ by
    rw [one_div, Nat.cast_pow, Nat.cast_ofNat]]
  rw [Rat.inv_natCast_num]
  apply Int.sign_eq_one_of_pos
  exact_mod_cast Nat.pos_pow_of_pos m (by omega)

/-- The denominator of a fraction of naturals divides the denominator it was
written over. -/
theorem den_dvd_of_eq_div {q : ℚ} {n m : ℕ} (h : q = (n : ℚ) / (m : ℚ)) :
    q.den ∣ m := by
  have : q = Rat.divInt (n : ℤ) (m : ℤ) := by
    rw [Rat.divInt_eq_div]
    push_cast
    exact h
  rw [this]
  exact_mod_cast Rat.den_dvd (n : ℤ) (m : ℤ)

/-- A nonnegative rational below one has its numerator's absolute value below
its denominator. -/
theorem natAbs_num_lt_den {q : ℚ} (h0 : 0 ≤ q) (h1 : q < 1) :
    q.num.natAbs < q.den := by
  have hnum : (0 : ℤ) ≤ q.num := Rat.num_nonneg.mpr h0
  have hlt : (q.num : ℚ) < (q.den : ℚ) := by
    have := Rat.num_div_den q
    rw [← this] at h1
    exact (div_lt_one (by exact_mod_cast q.den_pos)).mp h1
  have : q.num < (q.den : ℤ) := by exact_mod_cast hlt
  omega

/-- The unchecked `Ratio` addition of the accumulated quantity and its
rounding correction never panics: all four intermediates fit in `M`. -/
theorem no_add_panic (M len : ℕ) (num corr : ℚ)
    (hnum : ∃ n : ℕ, n < 12 ^ len ∧ num = (n : ℚ) / (12 : ℚ) ^ len)
    (hcden : corr.den = 12 ^ len) (hcnum : corr.num = 1)
    (hM : 12 ^ len ≤ M) : ¬ addPanics M num corr := by
  obtain ⟨n, hn, hrep⟩ := hnum
  have hpow : (0 : ℕ) < 12 ^ len := Nat.pos_pow_of_pos len (by omega)
  have hdvd : num.den ∣ 12 ^ len :=
    @den_dvd_of_eq_div num n (12 ^ len)
      (by rw [hrep, Nat.cast_pow, Nat.cast_ofNat])
  have h0 : 0 ≤ num := by
    rw [hrep]
    positivity
  have h1 : num < 1 := by
    rw [hrep]
    rw [div_lt_one (by positivity)]
    have : ((n : ℚ)) < ((12 ^ len : ℕ) : ℚ) := by exact_mod_cast hn
    rw [Nat.cast_pow, Nat.cast_ofNat] at this
    exact this
  have habs : num.num.natAbs < num.den := natAbs_num_lt_den h0 h1
  intro hp
  simp only [addPanics] at hp
  rw [hcden, Nat.gcd_eq_left hdvd, Nat.div_self num.den_pos, Nat.one_mul, hcnum,
    Int.natAbs_one, Nat.one_mul, Nat.div_self hpow] at hp
  set t := 12 ^ len / num.den with ht
  have hmul : num.den * t = 12 ^ len := Nat.mul_div_cancel' hdvd
  have htpos : 1 ≤ t := by
    rcases Nat.eq_zero_or_pos t with h | h
    · rw [h, Nat.mul_zero] at hmul; omega
    · exact h
  have hqn : num.num.natAbs * t ≤ 12 ^ len - 1 := by
    have h2 : num.num.natAbs * t ≤ (num.den - 1) * t :=
      Nat.mul_le_mul_right t (by omega)
    have h3 : (num.den - 1) * t = num.den * t - t := by
      rw [Nat.sub_mul, one_mul]
    omega
  rcases hp with h | h | h | h <;> omega

/-- `number_from_digit` only produces digit values up to 11. -/
theorem number_from_digit_le {input rest : List Char} {d : ℕ}
    (h : number_from_digit input = some (rest, d)) : d ≤ 11 := by
  unfold number_from_digit pMapRes at h
  cases hdd : duodecimal_digit input with
  | none => rw [hdd] at h; cases h
  | some r =>
    rw [hdd] at h
    simp only [Option.some_bind] at h
    split at h
    · simp only [Option.map_some'] at h
      cases h
      omega
    · split at h
      · simp only [Option.map_some'] at h
        cases h
        omega
      · unfold parseU8 at h
        split at h
        · split at h
          · simp only [Option.map_some'] at h
            cases h
            rename_i c heq hcond
            have hle : c.val ≤ UInt32.ofNat 57 := Char.le_def.mp hcond.2
            have h57 : c.toNat ≤ 57 := UInt32.toNat_le_of_le (by decide) hle
            omega
          · cases h
        · cases h

/-- The value shifted into place by a successful `try_shift_fraction`. -/
theorem try_shift_fraction_value {M base digit index : ℕ} {r : ℕ × ℚ}
    (h : try_shift_fraction M base digit index = some r) :
    r.2 = (digit : ℚ) / (base : ℚ) ^ (index + 1) := by
  unfold try_shift_fraction at h
  split at h
  · cases hdiv : divLoop M base (index + 1) (digit : ℚ) with
    | none => rw [hdiv] at h; cases h
    | some q =>
      rw [hdiv] at h
      cases h
      exact divLoop_value M base (index + 1) _ _ hdiv
  · cases h

/-- With `12 ≤ M`, the very first digit always incorporates: its shifted value
`d / 12` has denominator dividing 12 and numerator dividing `d ≤ 11`, and the
checked addition to zero fits. -/
theorem first_step_incorporates (M d : ℕ) (hM : 12 ≤ M) (hd : d ≤ 11) :
    stepIncorporates M 0 0 d ≠ none := by
  have hden : ((d : ℚ) / (12 : ℚ)).den ∣ 12 :=
    @den_dvd_of_eq_div ((d : ℚ) / (12 : ℚ)) d 12 (by push_cast; rfl)
  have hdenle : ((d : ℚ) / (12 : ℚ)).den ≤ 12 := Nat.le_of_dvd (by omega) hden
  have hnumle : ((d : ℚ) / (12 : ℚ)).num.natAbs ≤ 11 := by
    rcases Nat.eq_zero_or_pos d with h0 | hpos
    · subst h0
      norm_num
    · have hform : (d : ℚ) / (12 : ℚ) = Rat.divInt (d : ℤ) (12 : ℤ) := by
        rw [Rat.divInt_eq_div]
        push_cast
        rfl
      have hdvd : (Rat.divInt (d : ℤ) (12 : ℤ)).num ∣ (d : ℤ) :=
        Rat.num_dvd _ (by omega)
      rw [hform]
      have habs := Int.natAbs_dvd_natAbs.mpr hdvd
      have hle := Nat.le_of_dvd hpos (by simpa using habs)
      omega
  have hr : checkedDivInt M (d : ℚ) 12 = some ((d : ℚ) / (12 : ℚ)) := by
    simp only [checkedDivInt, Nat.cast_ofNat]
    rw [if_neg (by norm_num), if_pos ⟨le_trans hnumle (by omega), le_trans hdenle hM⟩]
  have hshift : try_shift_fraction M 12 d 0 = some (1, (d : ℚ) / (12 : ℚ)) := by
    unfold try_shift_fraction
    rw [if_pos (by omega : (0 : ℕ) + 1 ≤ 255)]
    rw [show divLoop M 12 (0 + 1) ((d : ℕ) : ℚ) =
      (checkedDivInt M ((d : ℕ) : ℚ) 12).bind (divLoop M 12 0) from rfl]
    rw [hr]
    rfl
  have hadd := checkedAdd_zero_left M ((d : ℚ) / (12 : ℚ))
    (le_trans hdenle hM) (le_trans hnumle (by omega))
  unfold stepIncorporates
  rw [hshift]
  simp only [Option.some_bind]
  rw [hadd]
  simp

/-- The fold step preserves the invariant, given the digit is a real
duodecimal digit and the width is at least a `u8`'s. -/
theorem digit_folder_inv (M : ℕ) (hM : 12 ≤ M) (s : ℕ × ℚ × Option Bool) (d : ℕ)
    (hd : d ≤ 11) (hs : QInv s) : QInv (digit_folder M s d) := by
  obtain ⟨⟨n, hn, hrep⟩, hinit⟩ := hs
  unfold digit_folder
  cases hstep : stepIncorporates M s.1 s.2.1 d with
  | none =>
    refine ⟨⟨n, hn, hrep⟩, fun h0 => ?_⟩
    exfalso
    obtain ⟨hq0, hflag⟩ := hinit h0
    rw [h0, hq0] at hstep
    exact first_step_incorporates M d hM hd hstep
  | some r =>
    obtain ⟨l, q⟩ := r
    have hl : l = s.1 + 1 := stepIncorporates_fst hstep
    subst hl
    show QInv (s.1 + 1, q, none)
    refine ⟨⟨12 * n + d, ?_, ?_⟩, fun h0 => absurd h0 (Nat.succ_ne_zero s.1)⟩
    · show 12 * n + d < 12 ^ (s.1 + 1)
      have h12 : (12 : ℕ) ^ (s.1 + 1) = 12 * 12 ^ s.1 := by
        rw [pow_succ]
        ring
      omega
    · show q = ((12 * n + d : ℕ) : ℚ) / (12 : ℚ) ^ (s.1 + 1)
      unfold stepIncorporates at hstep
      cases hshift : try_shift_fraction M 12 d s.1 with
      | none => rw [hshift] at hstep; cases hstep
      | some sh =>
        rw [hshift] at hstep
        cases hadd : checkedAdd M s.2.1 sh.2 with
        | none => simp [hadd] at hstep
        | some v =>
          simp only [Option.some_bind, hadd, Option.map_some', Option.some.injEq,
            Prod.mk.injEq] at hstep
          obtain ⟨hsh1, hvq⟩ := hstep
          have hq : q = s.2.1 + sh.2 := hvq.symm.trans (checkedAdd_some hadd)
          rw [hq, hrep, try_shift_fraction_value hshift]
          push_cast
          have h12 : ((12 : ℚ)) ^ (s.1 + 1) ≠ 0 := by positivity
          field_simp
          ring

/-- The `fold_many1` iteration preserves the invariant. -/
theorem foldLoop_inv (M : ℕ) (hM : 12 ≤ M) :
    ∀ (fuel : ℕ) (s : ℕ × ℚ × Option Bool) (input : List Char), QInv s →
      QInv (foldLoop number_from_digit (digit_folder M) fuel s input).2 := by
  intro fuel
  induction fuel with
  | zero => intro s input hs; exact hs
  | succ fuel ih =>
    intro s input hs
    unfold foldLoop
    cases hnfd : number_from_digit input with
    | none => exact hs
    | some r =>
      obtain ⟨rest, d⟩ := r
      exact ih _ rest (digit_folder_inv M hM s d (number_from_digit_le hnfd) hs)

/-- C9: `parse_sht` is total.  The only panic-capable operations on the parse
path are inside `quantity` (the `u8` subtraction `length - 1` and the final
unchecked `Ratio` addition of the rounding correction); for every backing
width of at least `u8` and every input, their panic conditions are false.
And parsing the empty string returns the `ParseFailure` error (at every
width), rather than panicking or returning any other variant. -/
theorem c9_parse_total :
    (∀ (M : ℕ) (input : List Char), 12 ≤ M → ¬ quantityPanics M input) ∧
    (∀ M : ℕ, parse_sht M "".data = Except.error ParsePropertyError.ParseFailure) := by
  constructor
  · intro M input hM
    unfold quantityPanics
    cases hfold : foldMany1 number_from_digit ((0 : ℕ), (0 : ℚ), (none : Option Bool))
        (digit_folder M) input with
    | none => exact fun h => h
    | some r =>
      obtain ⟨rest, state⟩ := r
      have hinv : QInv state := by
        unfold foldMany1 at hfold
        cases hnfd : number_from_digit input with
        | none => rw [hnfd] at hfold; cases hfold
        | some r0 =>
          obtain ⟨rest0, d⟩ := r0
          rw [hnfd] at hfold
          have hstart : QInv (digit_folder M ((0 : ℕ), (0 : ℚ), (none : Option Bool)) d) :=
            digit_folder_inv M hM _ d (number_from_digit_le hnfd)
              ⟨⟨0, by norm_num, by norm_num⟩, fun _ => ⟨rfl, rfl⟩⟩
          have hloop := foldLoop_inv M hM input.length
            (digit_folder M ((0 : ℕ), (0 : ℚ), (none : Option Bool)) d) rest0 hstart
          injection hfold with hfold'
          rw [hfold'] at hloop
          exact hloop
      intro hpanic
      obtain ⟨hflag, hrest⟩ := hpanic
      obtain ⟨⟨n, hn, hrep⟩, hinit⟩ := hinv
      have hlen : state.1 ≠ 0 := by
        intro h0
        have := (hinit h0).2
        rw [hflag] at this
        cases this
      rcases hrest with h0 | hcorr
      · exact hlen h0
      · revert hcorr
        cases hshift : try_shift_fraction M 12 1 (state.1 - 1) with
        | none => exact fun h => h
        | some c =>
          intro hcorr
          have hfst : c.1 = state.1 - 1 + 1 := try_shift_fraction_fst hshift
          have hlen1 : state.1 - 1 + 1 = state.1 := by omega
          have hval : c.2 = (1 : ℚ) / (12 : ℚ) ^ state.1 := by
            have := try_shift_fraction_value hshift
            rw [hlen1] at this
            simpa using this
          have hbound : (12 : ℕ) ^ state.1 ≤ M := by
            unfold try_shift_fraction at hshift
            split at hshift
            · cases hdiv : divLoop M 12 (state.1 - 1 + 1) ((1 : ℕ) : ℚ) with
              | none => rw [hdiv] at hshift; cases hshift
              | some q =>
                have := divLoop_one_bound M (state.1 - 1 + 1) 0 ((1 : ℕ) : ℚ) q
                  (by norm_num) hdiv (by omega)
                simpa [hlen1] using this
            · cases hshift
          exact no_add_panic M state.1 state.2.1 c.2
            ⟨n, hn, hrep⟩
            (by rw [hval]; exact one_div_pow_den state.1)
            (by rw [hval]; exact one_div_pow_num state.1)
            hbound hcorr
  · intro M
    rfl

/-- Witness for C9: panic-freedom at `u8` width on an input that actually
exercises the overflow-rounding path, and the concrete empty-string parse. -/
theorem c9_parse_total_witness :
    ¬ quantityPanics u8Max "EEEEEEEE".data ∧
    parse_sht u8Max "".data = Except.error ParsePropertyError.ParseFailure :=
  ⟨c9_parse_total.1 u8Max "EEEEEEEE".data (by decide), c9_parse_total.2 u8Max⟩

/-! ## Claim C4 -/

/-- A pair is left in place by `sortPair` exactly when it is `pairLe`-ordered. -/
theorem sortPair_of_le {a b : ℚ × Char} (h : pairLe a b) : sortPair a b = (a, b) := by
  unfold sortPair; rw [if_pos h]

/-- A pair is swapped by `sortPair` exactly when it is out of order. -/
theorem sortPair_of_not_le {a b : ℚ × Char} (h : ¬ pairLe a b) : sortPair a b = (b, a) := by
  unfold sortPair; rw [if_neg h]

/-- A strictly smaller key is `pairLe`, whatever the tag characters. -/
theorem pairLe_lt {v w : ℚ} {c d : Char} (h : v < w) : pairLe (v, c) (w, d) := Or.inl h

/-- A strictly larger key is never `pairLe`, whatever the tag characters. -/
theorem not_pairLe_gt {v w : ℚ} {c d : Char} (h : w < v) : ¬ pairLe (v, c) (w, d) := by
  rintro (h' | ⟨he, _⟩)
  · exact absurd h' (not_lt.mpr h.le)
  · exact ne_of_gt h he
/-- Equal keys fall back to the character order (the `≤` direction). -/
theorem pairLe_eq_le {v : ℚ} {c d : Char} (h : c ≤ d) : pairLe (v, c) (v, d) :=
  Or.inr ⟨rfl, h⟩

/-- Equal keys fall back to the character order (the `¬ ≤` direction). -/
theorem not_pairLe_eq_gt {v : ℚ} {c d : Char} (h : ¬ c ≤ d) : ¬ pairLe (v, c) (v, d) := by
  rintro (h' | ⟨_, hc⟩)
  · exact lt_irrefl v h'
  · exact h hc

/-- Evaluate the three-element sorting network from the three compare-and-swap
outcomes. -/
theorem sort3_eval {a b c x y z w u v : ℚ × Char}
    (h₁ : sortPair a b = (x, y))
    (h₂ : sortPair y c = (z, w))
    (h₃ : sortPair x z = (u, v)) :
    sort3 a b c = (u, v, w) := by
  simp only [sort3, h₁, h₂, h₃]

/-- A valid one-brightest-channel `SHT` has nonzero shade, tint below one, and
shade and tint at most one. -/
theorem normalErrors_one_facts {p : ColourChannel} {db : Option (ColourChannel × ℚ)}
    {s t : ℚ}
    (h : normalErrors (ChannelRatios.OneBrightestChannel p db) s t = []) :
    s ≠ 0 ∧ t ≠ 1 ∧ t ≤ 1 ∧ s ≤ 1 := by
  refine ⟨fun hc => ?_, fun hc => ?_, not_lt.mp fun hc => ?_, not_lt.mp fun hc => ?_⟩ <;>
    simp [normalErrors, hc] at h

/-- A valid direction blend differs from the primary and lies strictly between
zero and one (upper bound split as `≠ 1` and `≤ 1`). -/
theorem normalErrors_blend_facts {p d : ColourChannel} {b s t : ℚ}
    (h : normalErrors (ChannelRatios.OneBrightestChannel p (some (d, b))) s t = []) :
    d ≠ p ∧ b ≠ 0 ∧ b ≠ 1 ∧ b ≤ 1 := by
  refine ⟨fun hc => ?_, fun hc => ?_, fun hc => ?_, not_lt.mp fun hc => ?_⟩ <;>
    simp [normalErrors, hc] at h

/-- A valid two-brightest-channels `SHT` has nonzero shade, tint below one, and
shade and tint at most one. -/
theorem normalErrors_two_facts {sec : SecondaryColour} {s t : ℚ}
    (h : normalErrors (ChannelRatios.TwoBrightestChannels sec) s t = []) :
    s ≠ 0 ∧ t ≠ 1 ∧ t ≤ 1 ∧ s ≤ 1 := by
  refine ⟨fun hc => ?_, fun hc => ?_, not_lt.mp fun hc => ?_, not_lt.mp fun hc => ?_⟩ <;>
    simp [normalErrors, hc] at h

/-- Round-trip, case `OneBrightestChannel Red` without direction blend. -/
theorem rt_red_none (s t : ℚ) (P : ℕ)
    (hs : 0 < s) (ht0 : 0 ≤ t) (ht1 : t < 1)
    (h12t : round_denominator t 12 P 0 = t)
    (h12s : round_denominator s 12 P 0 = s)
    (hvalid : normalErrors
      (ChannelRatios.OneBrightestChannel ColourChannel.Red none) s t = []) :
    rgb_to_sht (t + s * (1 - t), t, t) P =
      some ⟨ChannelRatios.OneBrightestChannel ColourChannel.Red none, s, t⟩ := by
  have hmnmx : t < t + s * (1 - t) := by nlinarith
  have hmx_pos : (0 : ℚ) < t + s * (1 - t) := lt_of_le_of_lt ht0 hmnmx
  have hshade_eq : (t + s * (1 - t) - t) / (1 - t) = s := by
    rw [show t + s * (1 - t) - t = s * (1 - t) from by ring]
    exact mul_div_cancel_right₀ s (ne_of_gt (by linarith))
  have hsort : sort3 (t + s * (1 - t), 'r') (t, 'g') (t, 'b') =
      ((t, 'b'), (t, 'g'), (t + s * (1 - t), 'r')) :=
    sort3_eval (sortPair_of_not_le (not_pairLe_gt hmnmx))
      (sortPair_of_not_le (not_pairLe_gt hmnmx))
      (sortPair_of_not_le (not_pairLe_eq_gt (by decide)))
  simp only [rgb_to_sht, hsort]
  rw [if_pos hmnmx]
  simp only [show char_to_primary 'r' = some ColourChannel.Red from rfl, Option.some_bind]
  simp only [if_neg (lt_irrefl t)]
  rw [if_neg (ne_of_gt hmx_pos), if_neg (ne_of_lt hmnmx), hshade_eq, h12s, h12t]
  simp only [Option.some_bind, SHT.new, hvalid]

/-- Round-trip, case `OneBrightestChannel Green` without direction blend. -/
theorem rt_green_none (s t : ℚ) (P : ℕ)
    (hs : 0 < s) (ht0 : 0 ≤ t) (ht1 : t < 1)
    (h12t : round_denominator t 12 P 0 = t)
    (h12s : round_denominator s 12 P 0 = s)
    (hvalid : normalErrors
      (ChannelRatios.OneBrightestChannel ColourChannel.Green none) s t = []) :
    rgb_to_sht (t, t + s * (1 - t), t) P =
      some ⟨ChannelRatios.OneBrightestChannel ColourChannel.Green none, s, t⟩ := by
  have hmnmx : t < t + s * (1 - t) := by nlinarith
  have hmx_pos : (0 : ℚ) < t + s * (1 - t) := lt_of_le_of_lt ht0 hmnmx
  have hshade_eq : (t + s * (1 - t) - t) / (1 - t) = s := by
    rw [show t + s * (1 - t) - t = s * (1 - t) from by ring]
    exact mul_div_cancel_right₀ s (ne_of_gt (by linarith))
  have hsort : sort3 (t, 'r') (t + s * (1 - t), 'g') (t, 'b') =
      ((t, 'b'), (t, 'r'), (t + s * (1 - t), 'g')) :=
    sort3_eval (sortPair_of_le (pairLe_lt hmnmx))
      (sortPair_of_not_le (not_pairLe_gt hmnmx))
      (sortPair_of_not_le (not_pairLe_eq_gt (by decide)))
  simp only [rgb_to_sht, hsort]
  rw [if_pos hmnmx]
  simp only [show char_to_primary 'g' = some ColourChannel.Green from rfl, Option.some_bind]
  simp only [if_neg (lt_irrefl t)]
  rw [if_neg (ne_of_gt hmx_pos), if_neg (ne_of_lt hmnmx), hshade_eq, h12s, h12t]
  simp only [Option.some_bind, SHT.new, hvalid]

/-- Round-trip, case `OneBrightestChannel Blue` without direction blend. -/
theorem rt_blue_none (s t : ℚ) (P : ℕ)
    (hs : 0 < s) (ht0 : 0 ≤ t) (ht1 : t < 1)
    (h12t : round_denominator t 12 P 0 = t)
    (h12s : round_denominator s 12 P 0 = s)
    (hvalid : normalErrors
      (ChannelRatios.OneBrightestChannel ColourChannel.Blue none) s t = []) :
    rgb_to_sht (t, t, t + s * (1 - t)) P =
      some ⟨ChannelRatios.OneBrightestChannel ColourChannel.Blue none, s, t⟩ := by
  have hmnmx : t < t + s * (1 - t) := by nlinarith
  have hmx_pos : (0 : ℚ) < t + s * (1 - t) := lt_of_le_of_lt ht0 hmnmx
  have hshade_eq : (t + s * (1 - t) - t) / (1 - t) = s := by
    rw [show t + s * (1 - t) - t = s * (1 - t) from by ring]
    exact mul_div_cancel_right₀ s (ne_of_gt (by linarith))
  have hsort : sort3 (t, 'r') (t, 'g') (t + s * (1 - t), 'b') =
      ((t, 'g'), (t, 'r'), (t + s * (1 - t), 'b')) :=
    sort3_eval (sortPair_of_not_le (not_pairLe_eq_gt (by decide)))
      (sortPair_of_le (pairLe_lt hmnmx))
      (sortPair_of_le (pairLe_eq_le (by decide)))
  simp only [rgb_to_sht, hsort]
  rw [if_pos hmnmx]
  simp only [show char_to_primary 'b' = some ColourChannel.Blue from rfl, Option.some_bind]
  simp only [if_neg (lt_irrefl t)]
  rw [if_neg (ne_of_gt hmx_pos), if_neg (ne_of_lt hmnmx), hshade_eq, h12s, h12t]
  simp only [Option.some_bind, SHT.new, hvalid]

/-- Round-trip, case primary `Red` with direction `Green`. -/
theorem rt_red_green (s t b : ℚ) (P : ℕ)
    (hs : 0 < s) (ht0 : 0 ≤ t) (ht1 : t < 1) (hb : 0 < b) (hb1 : b < 1)
    (h12t : round_denominator t 12 P 0 = t)
    (h12s : round_denominator s 12 P 0 = s)
    (h12b : round_denominator b 12 P 0 = b)
    (hvalid : normalErrors (ChannelRatios.OneBrightestChannel ColourChannel.Red
      (some (ColourChannel.Green, b))) s t = []) :
    rgb_to_sht (t + s * (1 - t), t + b * (t + s * (1 - t) - t), t) P =
      some ⟨ChannelRatios.OneBrightestChannel ColourChannel.Red
        (some (ColourChannel.Green, b)), s, t⟩ := by
  have hmnmx : t < t + s * (1 - t) := by nlinarith
  have hmx_pos : (0 : ℚ) < t + s * (1 - t) := lt_of_le_of_lt ht0 hmnmx
  have hmd_lo : t < t + b * (t + s * (1 - t) - t) := by
    nlinarith [mul_pos hb (sub_pos.mpr hmnmx)]
  have hmd_hi : t + b * (t + s * (1 - t) - t) < t + s * (1 - t) := by
    nlinarith [mul_pos (show (0 : ℚ) < 1 - b by linarith) (sub_pos.mpr hmnmx)]
  have hshade_eq : (t + s * (1 - t) - t) / (1 - t) = s := by
    rw [show t + s * (1 - t) - t = s * (1 - t) from by ring]
    exact mul_div_cancel_right₀ s (ne_of_gt (by linarith))
  have hblend_eq :
      (t + b * (t + s * (1 - t) - t) - t) / (t + s * (1 - t) - t) = b := by
    rw [show t + b * (t + s * (1 - t) - t) - t = b * (t + s * (1 - t) - t) from by ring]
    exact mul_div_cancel_right₀ b (ne_of_gt (sub_pos.mpr hmnmx))
  have hsort : sort3 (t + s * (1 - t), 'r') (t + b * (t + s * (1 - t) - t), 'g') (t, 'b') =
      ((t, 'b'), (t + b * (t + s * (1 - t) - t), 'g'), (t + s * (1 - t), 'r')) :=
    sort3_eval (sortPair_of_not_le (not_pairLe_gt hmd_hi))
      (sortPair_of_not_le (not_pairLe_gt (lt_trans hmd_lo hmd_hi)))
      (sortPair_of_not_le (not_pairLe_gt hmd_lo))
  simp only [rgb_to_sht, hsort]
  rw [if_pos hmd_hi]
  simp only [show char_to_primary 'r' = some ColourChannel.Red from rfl, Option.some_bind]
  rw [if_pos hmd_lo]
  simp only [show char_to_primary 'g' = some ColourChannel.Green from rfl, Option.map_some']
  rw [hblend_eq, h12b]
  rw [if_neg (ne_of_gt hmx_pos), if_neg (ne_of_lt hmnmx), hshade_eq, h12s, h12t]
  simp only [Option.some_bind, SHT.new, hvalid]

/-- Round-trip, case primary `Red` with direction `Blue`. -/
theorem rt_red_blue (s t b : ℚ) (P : ℕ)
    (hs : 0 < s) (ht0 : 0 ≤ t) (ht1 : t < 1) (hb : 0 < b) (hb1 : b < 1)
    (h12t : round_denominator t 12 P 0 = t)
    (h12s : round_denominator s 12 P 0 = s)
    (h12b : round_denominator b 12 P 0 = b)
    (hvalid : normalErrors (ChannelRatios.OneBrightestChannel ColourChannel.Red
      (some (ColourChannel.Blue, b))) s t = []) :
    rgb_to_sht (t + s * (1 - t), t, t + b * (t + s * (1 - t) - t)) P =
      some ⟨ChannelRatios.OneBrightestChannel ColourChannel.Red
        (some (ColourChannel.Blue, b)), s, t⟩ := by
  have hmnmx : t < t + s * (1 - t) := by nlinarith
  have hmx_pos : (0 : ℚ) < t + s * (1 - t) := lt_of_le_of_lt ht0 hmnmx
  have hmd_lo : t < t + b * (t + s * (1 - t) - t) := by
    nlinarith [mul_pos hb (sub_pos.mpr hmnmx)]
  have hmd_hi : t + b * (t + s * (1 - t) - t) < t + s * (1 - t) := by
    nlinarith [mul_pos (show (0 : ℚ) < 1 - b by linarith) (sub_pos.mpr hmnmx)]
  have hshade_eq : (t + s * (1 - t) - t) / (1 - t) = s := by
    rw [show t + s * (1 - t) - t = s * (1 - t) from by ring]
    exact mul_div_cancel_right₀ s (ne_of_gt (by linarith))
  have hblend_eq :
      (t + b * (t + s * (1 - t) - t) - t) / (t + s * (1 - t) - t) = b := by
    rw [show t + b * (t + s * (1 - t) - t) - t = b * (t + s * (1 - t) - t) from by ring]
    exact mul_div_cancel_right₀ b (ne_of_gt (sub_pos.mpr hmnmx))
  have hsort : sort3 (t + s * (1 - t), 'r') (t, 'g') (t + b * (t + s * (1 - t) - t), 'b') =
      ((t, 'g'), (t + b * (t + s * (1 - t) - t), 'b'), (t + s * (1 - t), 'r')) :=
    sort3_eval (sortPair_of_not_le (not_pairLe_gt (lt_trans hmd_lo hmd_hi)))
      (sortPair_of_not_le (not_pairLe_gt hmd_hi))
      (sortPair_of_le (pairLe_lt hmd_lo))
  simp only [rgb_to_sht, hsort]
  rw [if_pos hmd_hi]
  simp only [show char_to_primary 'r' = some ColourChannel.Red from rfl, Option.some_bind]
  rw [if_pos hmd_lo]
  simp only [show char_to_primary 'b' = some ColourChannel.Blue from rfl, Option.map_some']
  rw [hblend_eq, h12b]
  rw [if_neg (ne_of_gt hmx_pos), if_neg (ne_of_lt hmnmx), hshade_eq, h12s, h12t]
  simp only [Option.some_bind, SHT.new, hvalid]

/-- Round-trip, case primary `Green` with direction `Red`. -/
theorem rt_green_red (s t b : ℚ) (P : ℕ)
    (hs : 0 < s) (ht0 : 0 ≤ t) (ht1 : t < 1) (hb : 0 < b) (hb1 : b < 1)
    (h12t : round_denominator t 12 P 0 = t)
    (h12s : round_denominator s 12 P 0 = s)
    (h12b : round_denominator b 12 P 0 = b)
    (hvalid : normalErrors (ChannelRatios.OneBrightestChannel ColourChannel.Green
      (some (ColourChannel.Red, b))) s t = []) :
    rgb_to_sht (t + b * (t + s * (1 - t) - t), t + s * (1 - t), t) P =
      some ⟨ChannelRatios.OneBrightestChannel ColourChannel.Green
        (some (ColourChannel.Red, b)), s, t⟩ := by
  have hmnmx : t < t + s * (1 - t) := by nlinarith
  have hmx_pos : (0 : ℚ) < t + s * (1 - t) := lt_of_le_of_lt ht0 hmnmx
  have hmd_lo : t < t + b * (t + s * (1 - t) - t) := by
    nlinarith [mul_pos hb (sub_pos.mpr hmnmx)]
  have hmd_hi : t + b * (t + s * (1 - t) - t) < t + s * (1 - t) := by
    nlinarith [mul_pos (show (0 : ℚ) < 1 - b by linarith) (sub_pos.mpr hmnmx)]
  have hshade_eq : (t + s * (1 - t) - t) / (1 - t) = s := by
    rw [show t + s * (1 - t) - t = s * (1 - t) from by ring]
    exact mul_div_cancel_right₀ s (ne_of_gt (by linarith))
  have hblend_eq :
      (t + b * (t + s * (1 - t) - t) - t) / (t + s * (1 - t) - t) = b := by
    rw [show t + b * (t + s * (1 - t) - t) - t = b * (t + s * (1 - t) - t) from by ring]
    exact mul_div_cancel_right₀ b (ne_of_gt (sub_pos.mpr hmnmx))
  have hsort : sort3 (t + b * (t + s * (1 - t) - t), 'r') (t + s * (1 - t), 'g') (t, 'b') =
      ((t, 'b'), (t + b * (t + s * (1 - t) - t), 'r'), (t + s * (1 - t), 'g')) :=
    sort3_eval (sortPair_of_le (pairLe_lt hmd_hi))
      (sortPair_of_not_le (not_pairLe_gt (lt_trans hmd_lo hmd_hi)))
      (sortPair_of_not_le (not_pairLe_gt hmd_lo))
  simp only [rgb_to_sht, hsort]
  rw [if_pos hmd_hi]
  simp only [show char_to_primary 'g' = some ColourChannel.Green from rfl, Option.some_bind]
  rw [if_pos hmd_lo]
  simp only [show char_to_primary 'r' = some ColourChannel.Red from rfl, Option.map_some']
  rw [hblend_eq, h12b]
  rw [if_neg (ne_of_gt hmx_pos), if_neg (ne_of_lt hmnmx), hshade_eq, h12s, h12t]
  simp only [Option.some_bind, SHT.new, hvalid]

/-- Round-trip, case primary `Green` with direction `Blue`. -/
theorem rt_green_blue (s t b : ℚ) (P : ℕ)
    (hs : 0 < s) (ht0 : 0 ≤ t) (ht1 : t < 1) (hb : 0 < b) (hb1 : b < 1)
    (h12t : round_denominator t 12 P 0 = t)
    (h12s : round_denominator s 12 P 0 = s)
    (h12b : round_denominator b 12 P 0 = b)
    (hvalid : normalErrors (ChannelRatios.OneBrightestChannel ColourChannel.Green
      (some (ColourChannel.Blue, b))) s t = []) :
    rgb_to_sht (t, t + s * (1 - t), t + b * (t + s * (1 - t) - t)) P =
      some ⟨ChannelRatios.OneBrightestChannel ColourChannel.Green
        (some (ColourChannel.Blue, b)), s, t⟩ := by
  have hmnmx : t < t + s * (1 - t) := by nlinarith
  have hmx_pos : (0 : ℚ) < t + s * (1 - t) := lt_of_le_of_lt ht0 hmnmx
  have hmd_lo : t < t + b * (t + s * (1 - t) - t) := by
    nlinarith [mul_pos hb (sub_pos.mpr hmnmx)]
  have hmd_hi : t + b * (t + s * (1 - t) - t) < t + s * (1 - t) := by
    nlinarith [mul_pos (show (0 : ℚ) < 1 - b by linarith) (sub_pos.mpr hmnmx)]
  have hshade_eq : (t + s * (1 - t) - t) / (1 - t) = s := by
    rw [show t + s * (1 - t) - t = s * (1 - t) from by ring]
    exact mul_div_cancel_right₀ s (ne_of_gt (by linarith))
  have hblend_eq :
      (t + b * (t + s * (1 - t) - t) - t) / (t + s * (1 - t) - t) = b := by
    rw [show t + b * (t + s * (1 - t) - t) - t = b * (t + s * (1 - t) - t) from by ring]
    exact mul_div_cancel_right₀ b (ne_of_gt (sub_pos.mpr hmnmx))
  have hsort : sort3 (t, 'r') (t + s * (1 - t), 'g') (t + b * (t + s * (1 - t) - t), 'b') =
      ((t, 'r'), (t + b * (t + s * (1 - t) - t), 'b'), (t + s * (1 - t), 'g')) :=
    sort3_eval (sortPair_of_le (pairLe_lt (lt_trans hmd_lo hmd_hi)))
      (sortPair_of_not_le (not_pairLe_gt hmd_hi))
      (sortPair_of_le (pairLe_lt hmd_lo))
  simp only [rgb_to_sht, hsort]
  rw [if_pos hmd_hi]
  simp only [show char_to_primary 'g' = some ColourChannel.Green from rfl, Option.some_bind]
  rw [if_pos hmd_lo]
  simp only [show char_to_primary 'b' = some ColourChannel.Blue from rfl, Option.map_some']
  rw [hblend_eq, h12b]
  rw [if_neg (ne_of_gt hmx_pos), if_neg (ne_of_lt hmnmx), hshade_eq, h12s, h12t]
  simp only [Option.some_bind, SHT.new, hvalid]

/-- Round-trip, case primary `Blue` with direction `Red`. -/
theorem rt_blue_red (s t b : ℚ) (P : ℕ)
    (hs : 0 < s) (ht0 : 0 ≤ t) (ht1 : t < 1) (hb : 0 < b) (hb1 : b < 1)
    (h12t : round_denominator t 12 P 0 = t)
    (h12s : round_denominator s 12 P 0 = s)
    (h12b : round_denominator b 12 P 0 = b)
    (hvalid : normalErrors (ChannelRatios.OneBrightestChannel ColourChannel.Blue
      (some (ColourChannel.Red, b))) s t = []) :
    rgb_to_sht (t + b * (t + s * (1 - t) - t), t, t + s * (1 - t)) P =
      some ⟨ChannelRatios.OneBrightestChannel ColourChannel.Blue
        (some (ColourChannel.Red, b)), s, t⟩ := by
  have hmnmx : t < t + s * (1 - t) := by nlinarith
  have hmx_pos : (0 : ℚ) < t + s * (1 - t) := lt_of_le_of_lt ht0 hmnmx
  have hmd_lo : t < t + b * (t + s * (1 - t) - t) := by
    nlinarith [mul_pos hb (sub_pos.mpr hmnmx)]
  have hmd_hi : t + b * (t + s * (1 - t) - t) < t + s * (1 - t) := by
    nlinarith [mul_pos (show (0 : ℚ) < 1 - b by linarith) (sub_pos.mpr hmnmx)]
  have hshade_eq : (t + s * (1 - t) - t) / (1 - t) = s := by
    rw [show t + s * (1 - t) - t = s * (1 - t) from by ring]
    exact mul_div_cancel_right₀ s (ne_of_gt (by linarith))
  have hblend_eq :
      (t + b * (t + s * (1 - t) - t) - t) / (t + s * (1 - t) - t) = b := by
    rw [show t + b * (t + s * (1 - t) - t) - t = b * (t + s * (1 - t) - t) from by ring]
    exact mul_div_cancel_right₀ b (ne_of_gt (sub_pos.mpr hmnmx))
  have hsort : sort3 (t + b * (t + s * (1 - t) - t), 'r') (t, 'g') (t + s * (1 - t), 'b') =
      ((t, 'g'), (t + b * (t + s * (1 - t) - t), 'r'), (t + s * (1 - t), 'b')) :=
    sort3_eval (sortPair_of_not_le (not_pairLe_gt hmd_lo))
      (sortPair_of_le (pairLe_lt hmd_hi))
      (sortPair_of_le (pairLe_lt hmd_lo))
  simp only [rgb_to_sht, hsort]
  rw [if_pos hmd_hi]
  simp only [show char_to_primary 'b' = some ColourChannel.Blue from rfl, Option.some_bind]
  rw [if_pos hmd_lo]
  simp only [show char_to_primary 'r' = some ColourChannel.Red from rfl, Option.map_some']
  rw [hblend_eq, h12b]
  rw [if_neg (ne_of_gt hmx_pos), if_neg (ne_of_lt hmnmx), hshade_eq, h12s, h12t]
  simp only [Option.some_bind, SHT.new, hvalid]

/-- Round-trip, case primary `Blue` with direction `Green`. -/
theorem rt_blue_green (s t b : ℚ) (P : ℕ)
    (hs : 0 < s) (ht0 : 0 ≤ t) (ht1 : t < 1) (hb : 0 < b) (hb1 : b < 1)
    (h12t : round_denominator t 12 P 0 = t)
    (h12s : round_denominator s 12 P 0 = s)
    (h12b : round_denominator b 12 P 0 = b)
    (hvalid : normalErrors (ChannelRatios.OneBrightestChannel ColourChannel.Blue
      (some (ColourChannel.Green, b))) s t = []) :
    rgb_to_sht (t, t + b * (t + s * (1 - t) - t), t + s * (1 - t)) P =
      some ⟨ChannelRatios.OneBrightestChannel ColourChannel.Blue
        (some (ColourChannel.Green, b)), s, t⟩ := by
  have hmnmx : t < t + s * (1 - t) := by nlinarith
  have hmx_pos : (0 : ℚ) < t + s * (1 - t) := lt_of_le_of_lt ht0 hmnmx
  have hmd_lo : t < t + b * (t + s * (1 - t) - t) := by
    nlinarith [mul_pos hb (sub_pos.mpr hmnmx)]
  have hmd_hi : t + b * (t + s * (1 - t) - t) < t + s * (1 - t) := by
    nlinarith [mul_pos (show (0 : ℚ) < 1 - b by linarith) (sub_pos.mpr hmnmx)]
  have hshade_eq : (t + s * (1 - t) - t) / (1 - t) = s := by
    rw [show t + s * (1 - t) - t = s * (1 - t) from by ring]
    exact mul_div_cancel_right₀ s (ne_of_gt (by linarith))
  have hblend_eq :
      (t + b * (t + s * (1 - t) - t) - t) / (t + s * (1 - t) - t) = b := by
    rw [show t + b * (t + s * (1 - t) - t) - t = b * (t + s * (1 - t) - t) from by ring]
    exact mul_div_cancel_right₀ b (ne_of_gt (sub_pos.mpr hmnmx))
  have hsort : sort3 (t, 'r') (t + b * (t + s * (1 - t) - t), 'g') (t + s * (1 - t), 'b') =
      ((t, 'r'), (t + b * (t + s * (1 - t) - t), 'g'), (t + s * (1 - t), 'b')) :=
    sort3_eval (sortPair_of_le (pairLe_lt hmd_lo))
      (sortPair_of_le (pairLe_lt hmd_hi))
      (sortPair_of_le (pairLe_lt hmd_lo))
  simp only [rgb_to_sht, hsort]
  rw [if_pos hmd_hi]
  simp only [show char_to_primary 'b' = some ColourChannel.Blue from rfl, Option.some_bind]
  rw [if_pos hmd_lo]
  simp only [show char_to_primary 'g' = some ColourChannel.Green from rfl, Option.map_some']
  rw [hblend_eq, h12b]
  rw [if_neg (ne_of_gt hmx_pos), if_neg (ne_of_lt hmnmx), hshade_eq, h12s, h12t]
  simp only [Option.some_bind, SHT.new, hvalid]

/-- Round-trip, case `TwoBrightestChannels Cyan`. -/
theorem rt_cyan (s t : ℚ) (P : ℕ)
    (hs : 0 < s) (ht0 : 0 ≤ t) (ht1 : t < 1)
    (h12t : round_denominator t 12 P 0 = t)
    (h12s : round_denominator s 12 P 0 = s)
    (hvalid : normalErrors
      (ChannelRatios.TwoBrightestChannels SecondaryColour.Cyan) s t = []) :
    rgb_to_sht (t, t + s * (1 - t), t + s * (1 - t)) P =
      some ⟨ChannelRatios.TwoBrightestChannels SecondaryColour.Cyan, s, t⟩ := by
  have hmnmx : t < t + s * (1 - t) := by nlinarith
  have hmx_pos : (0 : ℚ) < t + s * (1 - t) := lt_of_le_of_lt ht0 hmnmx
  have hshade_eq : (t + s * (1 - t) - t) / (1 - t) = s := by
    rw [show t + s * (1 - t) - t = s * (1 - t) from by ring]
    exact mul_div_cancel_right₀ s (ne_of_gt (by linarith))
  have hsort : sort3 (t, 'r') (t + s * (1 - t), 'g') (t + s * (1 - t), 'b') =
      ((t, 'r'), (t + s * (1 - t), 'b'), (t + s * (1 - t), 'g')) :=
    sort3_eval (sortPair_of_le (pairLe_lt hmnmx))
      (sortPair_of_not_le (not_pairLe_eq_gt (by decide)))
      (sortPair_of_le (pairLe_lt hmnmx))
  simp only [rgb_to_sht, hsort]
  rw [if_neg (lt_irrefl (t + s * (1 - t)))]
  rw [if_pos hmnmx]
  simp only [show chars_to_secondary 'g' 'b' = some SecondaryColour.Cyan from rfl,
    Option.map_some']
  rw [if_neg (ne_of_gt hmx_pos), if_neg (ne_of_lt hmnmx), hshade_eq, h12s, h12t]
  simp only [Option.some_bind, SHT.new, hvalid]

/-- Round-trip, case `TwoBrightestChannels Yellow`. -/
theorem rt_yellow (s t : ℚ) (P : ℕ)
    (hs : 0 < s) (ht0 : 0 ≤ t) (ht1 : t < 1)
    (h12t : round_denominator t 12 P 0 = t)
    (h12s : round_denominator s 12 P 0 = s)
    (hvalid : normalErrors
      (ChannelRatios.TwoBrightestChannels SecondaryColour.Yellow) s t = []) :
    rgb_to_sht (t + s * (1 - t), t + s * (1 - t), t) P =
      some ⟨ChannelRatios.TwoBrightestChannels SecondaryColour.Yellow, s, t⟩ := by
  have hmnmx : t < t + s * (1 - t) := by nlinarith
  have hmx_pos : (0 : ℚ) < t + s * (1 - t) := lt_of_le_of_lt ht0 hmnmx
  have hshade_eq : (t + s * (1 - t) - t) / (1 - t) = s := by
    rw [show t + s * (1 - t) - t = s * (1 - t) from by ring]
    exact mul_div_cancel_right₀ s (ne_of_gt (by linarith))
  have hsort : sort3 (t + s * (1 - t), 'r') (t + s * (1 - t), 'g') (t, 'b') =
      ((t, 'b'), (t + s * (1 - t), 'g'), (t + s * (1 - t), 'r')) :=
    sort3_eval (sortPair_of_not_le (not_pairLe_eq_gt (by decide)))
      (sortPair_of_not_le (not_pairLe_gt hmnmx))
      (sortPair_of_not_le (not_pairLe_gt hmnmx))
  simp only [rgb_to_sht, hsort]
  rw [if_neg (lt_irrefl (t + s * (1 - t)))]
  rw [if_pos hmnmx]
  simp only [show chars_to_secondary 'r' 'g' = some SecondaryColour.Yellow from rfl,
    Option.map_some']
  rw [if_neg (ne_of_gt hmx_pos), if_neg (ne_of_lt hmnmx), hshade_eq, h12s, h12t]
  simp only [Option.some_bind, SHT.new, hvalid]

/-- Round-trip, case `TwoBrightestChannels Magenta`. -/
theorem rt_magenta (s t : ℚ) (P : ℕ)
    (hs : 0 < s) (ht0 : 0 ≤ t) (ht1 : t < 1)
    (h12t : round_denominator t 12 P 0 = t)
    (h12s : round_denominator s 12 P 0 = s)
    (hvalid : normalErrors
      (ChannelRatios.TwoBrightestChannels SecondaryColour.Magenta) s t = []) :
    rgb_to_sht (t + s * (1 - t), t, t + s * (1 - t)) P =
      some ⟨ChannelRatios.TwoBrightestChannels SecondaryColour.Magenta, s, t⟩ := by
  have hmnmx : t < t + s * (1 - t) := by nlinarith
  have hmx_pos : (0 : ℚ) < t + s * (1 - t) := lt_of_le_of_lt ht0 hmnmx
  have hshade_eq : (t + s * (1 - t) - t) / (1 - t) = s := by
    rw [show t + s * (1 - t) - t = s * (1 - t) from by ring]
    exact mul_div_cancel_right₀ s (ne_of_gt (by linarith))
  have hsort : sort3 (t + s * (1 - t), 'r') (t, 'g') (t + s * (1 - t), 'b') =
      ((t, 'g'), (t + s * (1 - t), 'b'), (t + s * (1 - t), 'r')) :=
    sort3_eval (sortPair_of_not_le (not_pairLe_gt hmnmx))
      (sortPair_of_not_le (not_pairLe_eq_gt (by decide)))
      (sortPair_of_le (pairLe_lt hmnmx))
  simp only [rgb_to_sht, hsort]
  rw [if_neg (lt_irrefl (t + s * (1 - t)))]
  rw [if_pos hmnmx]
  simp only [show chars_to_secondary 'r' 'b' = some SecondaryColour.Magenta from rfl,
    Option.map_some']
  rw [if_neg (ne_of_gt hmx_pos), if_neg (ne_of_lt hmnmx), hshade_eq, h12s, h12t]
  simp only [Option.some_bind, SHT.new, hvalid]

/-- Round-trip, case `ThreeBrightestChannels` in canonical form. -/
theorem rt_three (s t : ℚ) (P : ℕ)
    (h12t : round_denominator t 12 P 0 = t)
    (hcanon : s = if t = 0 then 0 else 1)
    (hvalid : normalErrors ChannelRatios.ThreeBrightestChannels s t = []) :
    rgb_to_sht (t, t, t) P =
      some ⟨ChannelRatios.ThreeBrightestChannels, s, t⟩ := by
  have hsort : sort3 (t, 'r') (t, 'g') (t, 'b') = ((t, 'b'), (t, 'g'), (t, 'r')) :=
    sort3_eval (sortPair_of_not_le (not_pairLe_eq_gt (by decide)))
      (sortPair_of_not_le (not_pairLe_eq_gt (by decide)))
      (sortPair_of_not_le (not_pairLe_eq_gt (by decide)))
  simp only [rgb_to_sht, hsort]
  simp only [if_neg (lt_irrefl t)]
  rw [h12t]
  by_cases h0 : t = 0
  · have hs' : s = 0 := by rw [hcanon, if_pos h0]
    subst hs'
    rw [if_pos h0]
    simp only [Option.some_bind, SHT.new, hvalid]
  · have hs' : s = 1 := by rw [hcanon, if_neg h0]
    subst hs'
    rw [if_neg h0, if_true]
    simp only [Option.some_bind, SHT.new, hvalid]

/-- Counterexample to C4 as stated: the `ThreeBrightestChannels` value with
shade `1/3` and tint `1/3` is valid, and at precision 2 both rounding steps are
exact (the reconstructed channels and the re-derived tint are unchanged by
rounding), yet the round trip returns shade `1`: for grey inputs `rgb_to_sht`
cannot see the original shade and canonicalises it, so no precision makes the
round trip the identity on this value. -/
theorem c4_counterexample :
    normalErrors ChannelRatios.ThreeBrightestChannels (1 / 3) (1 / 3) = [] ∧
    sht_to_rgb ⟨ChannelRatios.ThreeBrightestChannels, 1 / 3, 1 / 3⟩ 2 =
      sht_to_rgb_raw ⟨ChannelRatios.ThreeBrightestChannels, 1 / 3, 1 / 3⟩ ∧
    round_denominator ((1 : ℚ) / 3) 12 2 0 = 1 / 3 ∧
    rgb_to_sht (sht_to_rgb ⟨ChannelRatios.ThreeBrightestChannels, 1 / 3, 1 / 3⟩ 2) 2 =
      some ⟨ChannelRatios.ThreeBrightestChannels, 1, 1 / 3⟩ ∧
    rgb_to_sht (sht_to_rgb ⟨ChannelRatios.ThreeBrightestChannels, 1 / 3, 1 / 3⟩ 2) 2 ≠
      some ⟨ChannelRatios.ThreeBrightestChannels, 1 / 3, 1 / 3⟩ :=
  of_decide_eq_true (by with_unfolding_all rfl)

/-- **C4.** Amended round-trip identity: for every valid `SHT` value `x` (its
`normal()` check passes, its shade, tint and blend are nonnegative as unsigned
ratios are, and a `ThreeBrightestChannels` value is in the canonical form
`rgb_to_sht` produces, i.e. shade `0` for black and `1` otherwise) and every
precision `P` at which no information is lost in either rounding step — the
base-16 channel rounding of `sht_to_rgb` returns the reconstructed channels
unchanged, and the base-12 rounding of `rgb_to_sht` returns shade, tint and
blend unchanged — `rgb_to_sht (sht_to_rgb x P) P` reproduces `x` exactly. -/
theorem c4_roundtrip (x : SHT) (P : ℕ)
    (hvalid : normalErrors x.channelRatios x.shade x.tint = [])
    (hs0 : 0 ≤ x.shade) (ht0 : 0 ≤ x.tint)
    (hb0 : ∀ p d b, x.channelRatios = ChannelRatios.OneBrightestChannel p (some (d, b)) →
      0 ≤ b)
    (hcanon : x.channelRatios = ChannelRatios.ThreeBrightestChannels →
      x.shade = if x.tint = 0 then 0 else 1)
    (h16 : sht_to_rgb x P = sht_to_rgb_raw x)
    (h12t : round_denominator x.tint 12 P 0 = x.tint)
    (h12s : round_denominator x.shade 12 P 0 = x.shade)
    (h12b : ∀ p d b, x.channelRatios = ChannelRatios.OneBrightestChannel p (some (d, b)) →
      round_denominator b 12 P 0 = b) :
    rgb_to_sht (sht_to_rgb x P) P = some x := by
  obtain ⟨cr, s, t⟩ := x
  rw [h16]
  have hs0' : (0 : ℚ) ≤ s := hs0
  have ht0' : (0 : ℚ) ≤ t := ht0
  have h12t' : round_denominator t 12 P 0 = t := h12t
  have h12s' : round_denominator s 12 P 0 = s := h12s
  cases cr with
  | OneBrightestChannel primary db =>
    have hval : normalErrors (ChannelRatios.OneBrightestChannel primary db) s t = [] :=
      hvalid
    obtain ⟨hs_ne, ht_ne, ht_le, -⟩ := normalErrors_one_facts hval
    have hs : 0 < s := lt_of_le_of_ne hs0' (Ne.symm hs_ne)
    have ht1 : t < 1 := lt_of_le_of_ne ht_le ht_ne
    rcases db with - | ⟨d, b⟩
    · cases primary
      · exact rt_red_none s t P hs ht0' ht1 h12t' h12s' hval
      · exact rt_green_none s t P hs ht0' ht1 h12t' h12s' hval
      · exact rt_blue_none s t P hs ht0' ht1 h12t' h12s' hval
    · obtain ⟨hdp, hb_ne0, hb_ne1, hb_le⟩ := normalErrors_blend_facts hval
      have hbnn : (0 : ℚ) ≤ b := hb0 primary d b rfl
      have hbpos : 0 < b := lt_of_le_of_ne hbnn (Ne.symm hb_ne0)
      have hb1 : b < 1 := lt_of_le_of_ne hb_le hb_ne1
      have h12b' : round_denominator b 12 P 0 = b := h12b primary d b rfl
      cases primary <;> cases d
      · exact absurd rfl hdp
      · exact rt_red_green s t b P hs ht0' ht1 hbpos hb1 h12t' h12s' h12b' hval
      · exact rt_red_blue s t b P hs ht0' ht1 hbpos hb1 h12t' h12s' h12b' hval
      · exact rt_green_red s t b P hs ht0' ht1 hbpos hb1 h12t' h12s' h12b' hval
      · exact absurd rfl hdp
      · exact rt_green_blue s t b P hs ht0' ht1 hbpos hb1 h12t' h12s' h12b' hval
      · exact rt_blue_red s t b P hs ht0' ht1 hbpos hb1 h12t' h12s' h12b' hval
      · exact rt_blue_green s t b P hs ht0' ht1 hbpos hb1 h12t' h12s' h12b' hval
      · exact absurd rfl hdp
  | TwoBrightestChannels secondary =>
    have hval : normalErrors (ChannelRatios.TwoBrightestChannels secondary) s t = [] :=
      hvalid
    obtain ⟨hs_ne, ht_ne, ht_le, -⟩ := normalErrors_two_facts hval
    have hs : 0 < s := lt_of_le_of_ne hs0' (Ne.symm hs_ne)
    have ht1 : t < 1 := lt_of_le_of_ne ht_le ht_ne
    cases secondary
    · exact rt_cyan s t P hs ht0' ht1 h12t' h12s' hval
    · exact rt_yellow s t P hs ht0' ht1 h12t' h12s' hval
    · exact rt_magenta s t P hs ht0' ht1 h12t' h12s' hval
  | ThreeBrightestChannels =>
    have hval : normalErrors ChannelRatios.ThreeBrightestChannels s t = [] := hvalid
    have hcanon' : s = if t = 0 then 0 else 1 := hcanon rfl
    exact rt_three s t P h12t' hcanon' hval

/-- Witness for C4: the valid value with primary red, no blend, shade `1/3`
and tint `1/3` round-trips exactly at precision 3, where every rounding step
is exact. -/
theorem c4_roundtrip_witness :
    rgb_to_sht
        (sht_to_rgb ⟨ChannelRatios.OneBrightestChannel ColourChannel.Red none,
          1 / 3, 1 / 3⟩ 3) 3 =
      some ⟨ChannelRatios.OneBrightestChannel ColourChannel.Red none, 1 / 3, 1 / 3⟩ :=
  c4_roundtrip ⟨ChannelRatios.OneBrightestChannel ColourChannel.Red none, 1 / 3, 1 / 3⟩ 3
    (of_decide_eq_true (by with_unfolding_all rfl))
    (of_decide_eq_true (by with_unfolding_all rfl))
    (of_decide_eq_true (by with_unfolding_all rfl))
    (fun p d b h => by simp at h)
    (fun h => by simp at h)
    (of_decide_eq_true (by with_unfolding_all rfl))
    (of_decide_eq_true (by with_unfolding_all rfl))
    (of_decide_eq_true (by with_unfolding_all rfl))
    (fun p d b h => by simp at h)

end ShtColour
